import Mathlib

/-!
# Verification of the coinbase-bot backtesting core

A shallow embedding, in Lean 4, of the position/cash ledger
(`src/core/portfolio.py`), the execution simulator and simulation loop
(`src/backtesting/engine.py`), and the metrics computation of the
coinbase-bot repository, together with theorems settling the spec's
claims about them.

Python `float` values are modelled as exact rationals (`ℚ`); `datetime`
values as natural-number ticks.  The Python `dict` of open positions is
modelled as an insertion-ordered association list, matching `dict`
semantics (replacement keeps the slot, a new key is appended).  A Python
method that can `raise` is modelled as returning the state reached at
the raise point together with an `Except` value; since every `raise` in
`Portfolio.add_position`'s guard section happens before any mutation,
a guard error carries the unchanged input state.
-/

namespace CoinbaseBot

/-- Position side, the `side` string field restricted to its two used
values `'BUY'` and `'SELL'`. -/
inductive Side where
  | buy
  | sell
deriving DecidableEq, Repr

/-- `Position` dataclass from `src/core/portfolio.py`. -/
structure Position where
  productId : String
  side : Side
  quantity : ℚ
  entryPrice : ℚ
  entryTime : ℕ
  currentPrice : Option ℚ := none
  unrealizedPnl : Option ℚ := none
  realizedPnl : ℚ := 0
deriving DecidableEq, Repr

/-- `Position.update_current_price`: set the mark price and recompute
unrealized PnL with the side-dependent sign. -/
def Position.updateCurrentPrice (pos : Position) (price : ℚ) : Position :=
  { pos with
    currentPrice := some price
    unrealizedPnl := some (match pos.side with
      | .buy => (price - pos.entryPrice) * pos.quantity
      | .sell => (pos.entryPrice - price) * pos.quantity) }

/-- `Position.get_market_value`: `current_price * quantity`, falling
back to the entry price when the position has never been marked. -/
def Position.getMarketValue (pos : Position) : ℚ :=
  match pos.currentPrice with
  | none => pos.entryPrice * pos.quantity
  | some cp => cp * pos.quantity

/-- One record of `Portfolio.trade_history`, as appended by
`Portfolio._record_trade`. -/
structure Trade where
  productId : String
  side : Side
  quantity : ℚ
  entryPrice : ℚ
  exitPrice : ℚ
  entryTime : ℕ
  exitTime : ℕ
  pnl : ℚ
  returnPct : ℚ
deriving DecidableEq, Repr

/-- Errors raised by `Portfolio.add_position`: `InsufficientFundsError`,
the position-size-limit `TradingError`, and the `KeyError` hit by
`return self.positions[product_id]` after a full close deleted the
entry.  In the Python class hierarchy `InsufficientFundsError` derives
from `TradingError`; builtin `KeyError` does not. -/
inductive PErr where
  | insufficientFunds
  | tradingErr
  | keyErr
deriving DecidableEq, Repr

/-- Whether the raised exception is an instance of the repository's
`TradingError` class (`InsufficientFundsError` subclasses it). -/
def PErr.isTradingErr : PErr → Bool
  | .insufficientFunds => true
  | .tradingErr => true
  | .keyErr => false

instance {ε α : Type _} [DecidableEq ε] [DecidableEq α] :
    DecidableEq (Except ε α)
  | .ok a, .ok b =>
    if h : a = b then .isTrue (by rw [h])
    else .isFalse (fun he => h (Except.ok.inj he))
  | .error a, .error b =>
    if h : a = b then .isTrue (by rw [h])
    else .isFalse (fun he => h (Except.error.inj he))
  | .ok _, .error _ => .isFalse (fun he => Except.noConfusion he)
  | .error _, .ok _ => .isFalse (fun he => Except.noConfusion he)

/-- The mutable state of a `Portfolio` object (`src/core/portfolio.py`):
immutable-per-run `initial_capital` and the risk limits taken from the
config, plus the mutated `cash_balance`, `positions` dict,
`trade_history`, `daily_returns` and `portfolio_values` lists. -/
structure PortfolioState where
  initialCapital : ℚ
  cashBalance : ℚ
  positions : List (String × Position)
  tradeHistory : List Trade
  dailyReturns : List ℚ
  portfolioValues : List (ℕ × ℚ)
  maxPositionSize : ℚ
  maxPortfolioRisk : ℚ
deriving DecidableEq, Repr

/-- `Portfolio.__init__` with a fresh ledger. -/
def Portfolio.init (initialCapital maxPositionSize maxPortfolioRisk : ℚ) :
    PortfolioState :=
  { initialCapital := initialCapital
    cashBalance := initialCapital
    positions := []
    tradeHistory := []
    dailyReturns := []
    portfolioValues := []
    maxPositionSize := maxPositionSize
    maxPortfolioRisk := maxPortfolioRisk }

/-- `dict.get`: lookup of a product id in the positions dict. -/
def lookupPos (ps : List (String × Position)) (pid : String) : Option Position :=
  match ps with
  | [] => none
  | (k, v) :: rest => if k = pid then some v else lookupPos rest pid

/-- `dict.__setitem__`: replace in place if the key is present,
append otherwise (Python dicts keep insertion order). -/
def setPos (ps : List (String × Position)) (pid : String) (p : Position) :
    List (String × Position) :=
  match ps with
  | [] => [(pid, p)]
  | (k, v) :: rest =>
    if k = pid then (k, p) :: rest else (k, v) :: setPos rest pid p

/-- `del dict[key]`. -/
def erasePos (ps : List (String × Position)) (pid : String) :
    List (String × Position) :=
  match ps with
  | [] => []
  | (k, v) :: rest => if k = pid then rest else (k, v) :: erasePos rest pid

/-- `Portfolio.get_available_cash`. -/
def PortfolioState.getAvailableCash (s : PortfolioState) : ℚ :=
  s.cashBalance

/-- `Portfolio.get_total_invested`: sum of market values of all open
positions. -/
def PortfolioState.getTotalInvested (s : PortfolioState) : ℚ :=
  (s.positions.map (fun pp => pp.2.getMarketValue)).sum

/-- `Portfolio.get_total_value`: cash plus invested value. -/
def PortfolioState.getTotalValue (s : PortfolioState) : ℚ :=
  s.cashBalance + s.getTotalInvested

/-- `Portfolio.get_position`. -/
def PortfolioState.getPosition (s : PortfolioState) (pid : String) :
    Option Position :=
  lookupPos s.positions pid

/-- `Portfolio._calculate_pnl`: realized PnL of closing `quantity`
units of `position` at `exitPrice`, with the side-dependent sign. -/
def calculatePnl (position : Position) (exitPrice quantity : ℚ) : ℚ :=
  match position.side with
  | .buy => (exitPrice - position.entryPrice) * quantity
  | .sell => (position.entryPrice - exitPrice) * quantity

/-- `Portfolio._record_trade`: append a closed-lot record to
`trade_history`.  The Python code stamps `exit_time` with
`datetime.now()`; the ambient clock is passed in as `now`. -/
def recordTrade (s : PortfolioState) (position : Position)
    (exitPrice quantity pnl : ℚ) (now : ℕ) : PortfolioState :=
  { s with tradeHistory := s.tradeHistory ++
      [{ productId := position.productId
         side := position.side
         quantity := quantity
         entryPrice := position.entryPrice
         exitPrice := exitPrice
         entryTime := position.entryTime
         exitTime := now
         pnl := pnl
         returnPct := pnl / (position.entryPrice * quantity) * 100 }] }

/-- `Portfolio.add_position(product_id, side, quantity, price,
timestamp)`.  Returns the state at exit (normal return or raise point)
and either the returned `Position` or the raised error.  The two guard
raises happen before any mutation; the `KeyError` raised by the final
`return self.positions[product_id]` after a same-quantity opposite-side
fill deleted the entry happens after the mutations, so it carries the
mutated state. -/
def addPosition (s : PortfolioState) (pid : String) (side : Side)
    (quantity price : ℚ) (timestamp now : ℕ) :
    PortfolioState × Except PErr Position :=
  let positionValue := quantity * price
  if side = .buy ∧ positionValue > s.cashBalance then
    (s, .error .insufficientFunds)
  else if positionValue > s.maxPositionSize then
    (s, .error .tradingErr)
  else
    match lookupPos s.positions pid with
    | some existingPos =>
      if existingPos.side ≠ side then
        -- closing or reducing the existing opposite-side position
        if quantity ≥ existingPos.quantity then
          -- full close or reverse
          let pnl := calculatePnl existingPos price existingPos.quantity
          let s1 := recordTrade s existingPos price existingPos.quantity pnl now
          if quantity > existingPos.quantity then
            -- reverse position
            let remainingQty := quantity - existingPos.quantity
            let newPosition : Position :=
              { productId := pid, side := side, quantity := remainingQty
                entryPrice := price, entryTime := timestamp }
            let s2 := { s1 with positions := setPos s1.positions pid newPosition }
            let s3 :=
              if side = .buy then
                { s2 with cashBalance := s2.cashBalance - remainingQty * price }
              else
                { s2 with cashBalance := s2.cashBalance + remainingQty * price }
            (s3, .ok newPosition)
          else
            -- full close
            let s2 := { s1 with positions := erasePos s1.positions pid }
            let s3 :=
              if side = .buy then
                { s2 with cashBalance := s2.cashBalance + pnl }
              else
                { s2 with cashBalance := s2.cashBalance - pnl }
            (s3, .error .keyErr)
        else
          -- partial close
          let pnl := calculatePnl existingPos price quantity
          let s1 := recordTrade s existingPos price quantity pnl now
          let updatedPos :=
            { existingPos with
              quantity := existingPos.quantity - quantity
              realizedPnl := existingPos.realizedPnl + pnl }
          let s2 := { s1 with positions := setPos s1.positions pid updatedPos }
          let s3 :=
            if side = .buy then
              { s2 with cashBalance := s2.cashBalance + pnl }
            else
              { s2 with cashBalance := s2.cashBalance - pnl }
          (s3, .ok updatedPos)
      else
        -- add to existing same-side position: quantity-weighted average
        let totalValue := existingPos.quantity * existingPos.entryPrice
          + quantity * price
        let totalQuantity := existingPos.quantity + quantity
        let updatedPos :=
          { existingPos with
            entryPrice := totalValue / totalQuantity
            quantity := totalQuantity }
        let s1 := { s with positions := setPos s.positions pid updatedPos }
        let s2 :=
          if side = .buy then
            { s1 with cashBalance := s1.cashBalance - quantity * price }
          else
            { s1 with cashBalance := s1.cashBalance + quantity * price }
        (s2, .ok updatedPos)
    | none =>
      -- new position
      let newPosition : Position :=
        { productId := pid, side := side, quantity := quantity
          entryPrice := price, entryTime := timestamp }
      let s1 := { s with positions := setPos s.positions pid newPosition }
      let s2 :=
        if side = .buy then
          { s1 with cashBalance := s1.cashBalance - positionValue }
        else
          { s1 with cashBalance := s1.cashBalance + positionValue }
      (s2, .ok newPosition)

/-- `Portfolio.close_position(product_id, price, timestamp)`: full
close of a position, returning the realized PnL or `none` if no
position exists.  On a long the proceeds `quantity * price` are
credited; on a short only the PnL is credited. -/
def closePosition (s : PortfolioState) (pid : String) (price : ℚ)
    (now : ℕ) : PortfolioState × Option ℚ :=
  match lookupPos s.positions pid with
  | none => (s, none)
  | some position =>
    let pnl := calculatePnl position price position.quantity
    let s1 := recordTrade s position price position.quantity pnl now
    let s2 :=
      if position.side = .buy then
        { s1 with cashBalance := s1.cashBalance + position.quantity * price }
      else
        { s1 with cashBalance := s1.cashBalance + pnl }
    ({ s2 with positions := erasePos s2.positions pid }, some pnl)

/-- `Portfolio.update_positions(market_prices)`: mark every open
position whose product id appears in the price mapping. -/
def updatePositions (s : PortfolioState) (marketPrices : List (String × ℚ)) :
    PortfolioState :=
  { s with positions := s.positions.map (fun pp =>
      match marketPrices.lookup pp.1 with
      | some price => (pp.1, pp.2.updateCurrentPrice price)
      | none => pp) }

/-- `Portfolio.reset`: restore cash to the initial capital and clear
positions, trade history, daily returns and recorded values.  The
capital and the configured limits are kept. -/
def PortfolioState.reset (s : PortfolioState) : PortfolioState :=
  { s with
    cashBalance := s.initialCapital
    positions := []
    tradeHistory := []
    dailyReturns := []
    portfolioValues := [] }

/-! ## Backtest engine (`src/backtesting/engine.py`) -/

/-- The `Signal` enum of `src/strategies/base.py`. -/
inductive Signal where
  | buy
  | sell
  | hold
deriving DecidableEq, Repr

/-- The `TradingSignal` dataclass, restricted to the fields the engine
reads (`signal` and `confidence`; the optional price/timestamp/metadata
fields are diagnostics the engine merely copies). -/
structure TradingSignal where
  signal : Signal
  confidence : ℚ
deriving DecidableEq, Repr

/-- One OHLCV bar of the market-data frame, with its index timestamp. -/
structure Bar where
  time : ℕ
  openP : ℚ
  high : ℚ
  low : ℚ
  close : ℚ
  volume : ℚ
deriving DecidableEq, Repr

/-- The strategy collaborator, modelled per the §6 contract as pure
functions of the materialized history (`generate_signal` and
`should_exit_position` may fail, which Python surfaces as a raised
exception and is modelled as `Except.error`). -/
structure Strategy where
  name : String
  requiredHistory : ℕ
  generateSignal : List Bar → Except Unit TradingSignal
  calcPositionSize : ℚ → ℚ → TradingSignal → ℚ
  shouldExitPosition : List Bar → ℚ → ℚ → Side → Except Unit (Bool × String)

/-- Action tag of an engine trade event. -/
inductive Action where
  | buyA
  | sellA
  | closeA
deriving DecidableEq, Repr

/-- One entry of the engine's `trades` event list.  BUY/SELL events
carry value, commission and confidence; CLOSE events carry pnl and the
exit reason (absent dict keys are `none`). -/
structure TradeEvent where
  timestamp : ℕ
  action : Action
  productId : String
  price : ℚ
  quantity : ℚ
  value : Option ℚ := none
  commission : Option ℚ := none
  pnl : Option ℚ := none
  reason : Option String := none
  confidence : Option ℚ := none
deriving DecidableEq, Repr

/-- One entry of the engine's `signals` log. -/
structure SignalRecord where
  timestamp : ℕ
  signal : Signal
  confidence : ℚ
  price : ℚ
deriving DecidableEq, Repr

/-- One entry of the engine's `portfolio_values` equity curve. -/
structure Snapshot where
  timestamp : ℕ
  portfolioValue : ℚ
  cash : ℚ
  positionsValue : ℚ
deriving DecidableEq, Repr

/-- `BacktestEngine._execute_signal`: convert a signal into a fill (or
a no-op), apply it to the portfolio, and return the trade event.  The
body's `try`/`except` catches any exception from `add_position` and
returns `None`, keeping whatever portfolio state the raise left. -/
def executeSignal (commissionRate slippageRate : ℚ) (strat : Strategy)
    (port : PortfolioState) (signal : TradingSignal) (pid : String)
    (price : ℚ) (timestamp now : ℕ) : PortfolioState × Option TradeEvent :=
  match signal.signal with
  | .hold => (port, none)
  | .buy =>
    let executionPrice := price * (1 + slippageRate)
    let accountBalance := port.getAvailableCash
    let positionSizeUsd := strat.calcPositionSize accountBalance executionPrice signal
    if positionSizeUsd < 10 then (port, none)
    else
      let quantity := positionSizeUsd / executionPrice
      let commission := positionSizeUsd * commissionRate
      let effectiveSize := positionSizeUsd + commission
      if effectiveSize ≤ accountBalance then
        match addPosition port pid .buy quantity executionPrice timestamp now with
        | (port1, .ok _) =>
          (port1, some { timestamp := timestamp, action := .buyA, productId := pid
                         price := executionPrice, quantity := quantity
                         value := some positionSizeUsd, commission := some commission
                         confidence := some signal.confidence })
        | (port1, .error _) => (port1, none)
      else (port, none)
  | .sell =>
    let executionPrice := price * (1 - slippageRate)
    let accountBalance := port.getAvailableCash
    let positionSizeUsd := strat.calcPositionSize accountBalance executionPrice signal
    if positionSizeUsd < 10 then (port, none)
    else
      match lookupPos port.positions pid with
      | some position =>
        if position.side = .buy then
          let quantity := position.quantity
          let commission := quantity * executionPrice * commissionRate
          let pc := closePosition port pid executionPrice now
          (pc.1, some { timestamp := timestamp, action := .sellA, productId := pid
                        price := executionPrice, quantity := quantity
                        value := some (quantity * executionPrice)
                        commission := some commission, pnl := pc.2
                        confidence := some signal.confidence })
        else (port, none)
      | none => (port, none)

/-- The accumulated loop state of `run_backtest`: the portfolio plus
the `signals`, `portfolio_values` and `trades` lists. -/
structure LoopState where
  port : PortfolioState
  signals : List SignalRecord
  values : List Snapshot
  trades : List TradeEvent
deriving DecidableEq, Repr

/-- One iteration of the `run_backtest` bar loop, given the history
`bars[0..i]` and the row `bars[i]`.  An exception from
`generate_signal` is caught (`continue` — the bar contributes only its
mark and snapshot); an exception from `should_exit_position` is not
caught locally and aborts the whole run (`Except.error`, carrying the
loop state the abort left behind). -/
def processBar (commissionRate slippageRate : ℚ) (strat : Strategy)
    (pid : String) (now : ℕ) (st : LoopState) (step : List Bar × Bar) :
    Except LoopState LoopState :=
  let currentData := step.1
  let currentPrice := step.2.close
  let currentTime := step.2.time
  let port := updatePositions st.port [(pid, currentPrice)]
  let values := st.values ++
    [{ timestamp := currentTime, portfolioValue := port.getTotalValue
       cash := port.cashBalance, positionsValue := port.getTotalInvested }]
  match strat.generateSignal currentData with
  | .error _ => .ok { st with port := port, values := values }
  | .ok signal =>
    let signals := st.signals ++
      [{ timestamp := currentTime, signal := signal.signal
         confidence := signal.confidence, price := currentPrice }]
    let pe := if signal.confidence > 1/2 then
        executeSignal commissionRate slippageRate strat port signal pid
          currentPrice currentTime now
      else (port, none)
    let port2 := pe.1
    let trades := st.trades ++ pe.2.toList
    match lookupPos port2.positions pid with
    | some position =>
      match strat.shouldExitPosition currentData position.entryPrice
          currentPrice position.side with
      | .error _ =>
        .error { port := port2, signals := signals, values := values
                 trades := trades }
      | .ok (shouldExitB, reason) =>
        if shouldExitB then
          let pc := closePosition port2 pid currentPrice now
          let trades2 := trades ++ (match pc.2 with
            | some pnl =>
              [{ timestamp := currentTime, action := .closeA, productId := pid
                 price := currentPrice, quantity := position.quantity
                 pnl := some pnl, reason := some reason }]
            | none => [])
          .ok { port := pc.1, signals := signals, values := values
                trades := trades2 }
        else
          .ok { port := port2, signals := signals, values := values
                trades := trades }
    | none =>
      .ok { port := port2, signals := signals, values := values
            trades := trades }

/-- The list of `(bars[0..i], bars[i])` pairs for
`i = min_history .. len(bars) - 1`, the iteration space of the bar
loop. -/
def barSteps (data : List Bar) (minHistory : ℕ) : List (List Bar × Bar) :=
  ((List.range data.length).drop minHistory).filterMap
    (fun i => (data.get? i).map (fun b => (data.take (i + 1), b)))

/-- The bar loop: fold `processBar` over `barSteps`, short-circuiting
on an abort. -/
def runLoop (commissionRate slippageRate : ℚ) (strat : Strategy)
    (pid : String) (now : ℕ) (init : LoopState)
    (steps : List (List Bar × Bar)) : Except LoopState LoopState :=
  steps.foldl
    (fun acc step => match acc with
      | .error st => .error st
      | .ok st => processBar commissionRate slippageRate strat pid now st step)
    (.ok init)

/-! ## Metrics calculator (`BacktestEngine._calculate_results`) -/

/-- Arithmetic mean of a list (pandas `.mean()`; callers guard the
empty case exactly where the Python code does). -/
def ratMean (l : List ℚ) : ℚ :=
  l.sum / l.length

/-- pandas `pct_change()` on the equity series, with the leading `NaN`
dropped (it is skipped by every downstream `mean`/`std`). -/
def pctChanges (l : List ℚ) : List ℚ :=
  (l.zip l.tail).map (fun pc => (pc.2 - pc.1) / pc.1)

/-- Numerator `Σ (x - mean)²` of the sample variance. -/
def sqDevSum (l : List ℚ) : ℚ :=
  (l.map (fun x => (x - ratMean l) ^ 2)).sum

/-- pandas `.std()` (sample standard deviation, `ddof=1`): defined
(and finite) only when at least two values are present. -/
def sampleVar (l : List ℚ) : ℚ :=
  sqDevSum l / ((l.length : ℚ) - 1)

/-- `expanding().max()` continuation: running maxima seeded with `m`. -/
def runMaxFrom (m : ℚ) : List ℚ → List ℚ
  | [] => []
  | x :: xs => max m x :: runMaxFrom (max m x) xs

/-- pandas `expanding().max()`: running maxima of a series. -/
def runningMax : List ℚ → List ℚ
  | [] => []
  | x :: xs => x :: runMaxFrom x xs

/-- Minimum of a list (`.min()`; callers guard emptiness). -/
def listMinQ : List ℚ → ℚ
  | [] => 0
  | x :: xs => xs.foldl min x

/-- Maximum of a list (`.max()`; callers guard emptiness). -/
def listMaxQ : List ℚ → ℚ
  | [] => 0
  | x :: xs => xs.foldl max x

/-- A metric value that the Python code computes with `sqrt` and
float division: either an exact rational, the float `NaN` (e.g. the
std of fewer than two values), or a symbolic `std`-scaled value kept
in terms of the exact sample variance.  `stdScaled v` denotes
`sqrt v * sqrt 252 * 100` and `meanOverStd m v` denotes
`m / sqrt v * sqrt 252`. -/
inductive MetricVal where
  | num (q : ℚ)
  | nan
  | stdScaled (sampleVariance : ℚ)
  | meanOverStd (mean sampleVariance : ℚ)
deriving DecidableEq, Repr

/-- The `results` dictionary assembled by `_calculate_results`
(the derived `returns`/`cumulative_return` columns of the equity
frame are functions of `portfolioValues` and are not duplicated). -/
structure RunResults where
  totalReturn : ℚ
  buyHoldReturn : ℚ
  excessReturn : ℚ
  volatility : MetricVal
  sharpe : MetricVal
  maxDrawdown : ℚ
  initialCapital : ℚ
  finalValue : ℚ
  maxValue : ℚ
  minValue : ℚ
  totalTrades : ℕ
  winningTrades : ℕ
  losingTrades : ℕ
  winRate : ℚ
  avgWin : ℚ
  avgLoss : ℚ
  profitFactor : ℚ
  totalSignals : ℕ
  buySignals : ℕ
  sellSignals : ℕ
  holdSignals : ℕ
  avgConfidence : ℚ
  portfolioValues : List Snapshot
  signalLog : List SignalRecord
  tradeLog : List TradeEvent
  strategyName : String
deriving DecidableEq, Repr

/-- Does a trade event's `pnl` entry exist and exceed 0 (`df['pnl'] > 0`;
a missing key is `NaN`, which compares false)? -/
def TradeEvent.pnlPos (t : TradeEvent) : Bool :=
  match t.pnl with
  | some p => p > 0
  | none => false

/-- Does a trade event's `pnl` entry exist and lie below 0? -/
def TradeEvent.pnlNeg (t : TradeEvent) : Bool :=
  match t.pnl with
  | some p => p < 0
  | none => false

/-- Sum of the `pnl` entries of a trade-event list. -/
def pnlSum (ts : List TradeEvent) : ℚ :=
  (ts.map (fun t => (t.pnl.getD 0))).sum

/-- `BacktestEngine._calculate_results` on a non-empty equity curve
(the empty case returns the empty dictionary, which the caller then
crashes on; `runBacktest` models that path as a run failure). -/
def calculateResults (initialCapital : ℚ) (values : List Snapshot)
    (signals : List SignalRecord) (trades : List TradeEvent)
    (data : List Bar) (strat : Strategy) : RunResults :=
  let vlist := values.map (fun v => v.portfolioValue)
  let returns := pctChanges vlist
  let initialPrice := (data.map (fun b => b.close)).headD 0
  let finalPrice := (data.map (fun b => b.close)).getLastD 0
  let buyHoldReturn := (finalPrice - initialPrice) / initialPrice * 100
  let totalReturn := (vlist.getLastD 0 - initialCapital) / initialCapital * 100
  let volatility :=
    if 2 ≤ returns.length then MetricVal.stdScaled (sampleVar returns)
    else MetricVal.nan
  let sharpe :=
    if 2 ≤ returns.length ∧ 0 < sqDevSum returns then
      MetricVal.meanOverStd (ratMean returns) (sampleVar returns)
    else MetricVal.num 0
  let peaks := runningMax vlist
  let drawdowns := (vlist.zip peaks).map (fun vp => (vp.1 - vp.2) / vp.2 * 100)
  let maxDrawdown := listMinQ drawdowns
  let profitableTrades := trades.filter (fun t => t.pnlPos)
  let losingTrades := trades.filter (fun t => t.pnlNeg)
  let winRate :=
    if trades.isEmpty then 0
    else (profitableTrades.length : ℚ) / (trades.length : ℚ) * 100
  let avgWin :=
    if trades.isEmpty ∨ profitableTrades.isEmpty then 0
    else ratMean (profitableTrades.map (fun t => t.pnl.getD 0))
  let avgLoss :=
    if trades.isEmpty ∨ losingTrades.isEmpty then 0
    else ratMean (losingTrades.map (fun t => t.pnl.getD 0))
  let profitFactor :=
    if trades.isEmpty ∨ losingTrades.isEmpty ∨ pnlSum losingTrades = 0 then 0
    else |pnlSum profitableTrades / pnlSum losingTrades|
  let avgConfidence :=
    if signals.isEmpty then 0
    else ratMean (signals.map (fun s => s.confidence))
  { totalReturn := totalReturn
    buyHoldReturn := buyHoldReturn
    excessReturn := totalReturn - buyHoldReturn
    volatility := volatility
    sharpe := sharpe
    maxDrawdown := maxDrawdown
    initialCapital := initialCapital
    finalValue := vlist.getLastD 0
    maxValue := listMaxQ vlist
    minValue := listMinQ vlist
    totalTrades := trades.length
    winningTrades := if trades.isEmpty then 0 else profitableTrades.length
    losingTrades := if trades.isEmpty then 0 else losingTrades.length
    winRate := winRate
    avgWin := avgWin
    avgLoss := avgLoss
    profitFactor := profitFactor
    totalSignals := signals.length
    buySignals := (signals.filter (fun s => s.signal = Signal.buy)).length
    sellSignals := (signals.filter (fun s => s.signal = Signal.sell)).length
    holdSignals := (signals.filter (fun s => s.signal = Signal.hold)).length
    avgConfidence := avgConfidence
    portfolioValues := values
    signalLog := signals
    tradeLog := trades
    strategyName := strat.name }

/-- `BacktestEngine.run_backtest` (without the optional date filter):
returns the engine's portfolio state after the call plus either the
results or a `BacktestError` (`Except.error`).  Faithful ordering: the
empty-data check precedes the portfolio reset, the
insufficient-history check follows it; a zero-iteration loop ends in
`_calculate_results` returning the empty dict, whose `['total_return']`
access then raises (a run failure).  The strategy is pure (§6), so its
one-time `initialize` warmup carries no modelled state. -/
def runBacktest (initialCapital commissionRate slippageRate : ℚ)
    (strat : Strategy) (data : List Bar) (pid : String)
    (port : PortfolioState) (now : ℕ) :
    PortfolioState × Except Unit RunResults :=
  if data.isEmpty then (port, .error ())
  else
    let port1 := port.reset
    let minHistory := strat.requiredHistory
    if data.length < minHistory then (port1, .error ())
    else
      let init : LoopState :=
        { port := port1, signals := [], values := [], trades := [] }
      match runLoop commissionRate slippageRate strat pid now init
          (barSteps data minHistory) with
      | .error st => (st.port, .error ())
      | .ok st =>
        if st.values.isEmpty then (st.port, .error ())
        else
          (st.port, .ok (calculateResults initialCapital st.values st.signals
            st.trades data strat))

/-! ## Derived ledger quantities and helper lemmas -/

attribute [local semireducible] Rat.add Rat.mul Rat.inv Rat.sub

/-- Sum of realized PnL over the recorded (closed-lot) trade history. -/
def realizedPnlSum (s : PortfolioState) : ℚ :=
  (s.tradeHistory.map (fun t => t.pnl)).sum

/-- Sum of unrealized PnL over the open positions (an unmarked
position contributes 0, as in `get_metrics`). -/
def unrealizedPnlSum (s : PortfolioState) : ℚ :=
  (s.positions.map (fun pp => pp.2.unrealizedPnl.getD 0)).sum

/-- The §3/§8 conservation law at a state: total value equals initial
capital plus realized plus unrealized PnL. -/
def conservation (s : PortfolioState) : Prop :=
  s.getTotalValue = s.initialCapital + realizedPnlSum s + unrealizedPnlSum s

instance (s : PortfolioState) : Decidable (conservation s) := by
  unfold conservation; infer_instance

theorem lookupPos_setPos_self (ps : List (String × Position)) (pid : String)
    (p : Position) : lookupPos (setPos ps pid p) pid = some p := by
  induction ps with
  | nil => simp [setPos, lookupPos]
  | cons hd tl ih =>
    by_cases h : hd.1 = pid
    · simp [setPos, lookupPos, h]
    · simpa [setPos, lookupPos, h] using ih

theorem lookupPos_erasePos_self (ps : List (String × Position)) (pid : String)
    (hnd : (ps.map Prod.fst).Nodup) :
    lookupPos (erasePos ps pid) pid = none := by
  induction ps with
  | nil => simp [erasePos, lookupPos]
  | cons hd tl ih =>
    simp only [List.map_cons, List.nodup_cons] at hnd
    by_cases h : hd.1 = pid
    · subst h
      cases hl : lookupPos tl hd.1 with
      | none => simpa [erasePos] using hl
      | some v =>
        exfalso
        apply hnd.1
        clear ih hnd
        induction tl with
        | nil => simp [lookupPos] at hl
        | cons hd2 tl2 ih2 =>
          simp only [lookupPos] at hl
          by_cases h2 : hd2.1 = hd.1
          · simp [h2]
          · simp only [if_neg h2] at hl
            simpa using Or.inr (ih2 hl)
    · simpa [erasePos, lookupPos, h] using ih hnd.2

/-! ## C10 — guard checks run before the branch on an existing position -/

/-- C10: in `add_position` the cash-sufficiency and position-limit
guards run before the existing-position branch, so they apply to every
fill: a BUY whose notional exceeds cash raises
`InsufficientFundsError`, any fill whose notional exceeds
`max_position_size` raises a `TradingError`
(`InsufficientFundsError` being a subclass), and in every such case
the returned state is exactly the input state. -/
theorem claim_C10 (s : PortfolioState) (pid : String) (side : Side)
    (quantity price : ℚ) (timestamp now : ℕ) :
    (side = .buy ∧ quantity * price > s.cashBalance →
      addPosition s pid side quantity price timestamp now
        = (s, .error .insufficientFunds))
    ∧ (quantity * price > s.maxPositionSize →
        ¬(side = .buy ∧ quantity * price > s.cashBalance) →
      addPosition s pid side quantity price timestamp now
        = (s, .error .tradingErr))
    ∧ (quantity * price > s.maxPositionSize →
      ∃ e : PErr, e.isTradingErr = true ∧
        addPosition s pid side quantity price timestamp now = (s, .error e)) := by
  refine ⟨fun h => ?_, fun h hn => ?_, fun h => ?_⟩
  · simp only [addPosition]
    rw [if_pos h]
  · simp only [addPosition]
    rw [if_neg hn, if_pos h]
  · by_cases hb : side = .buy ∧ quantity * price > s.cashBalance
    · refine ⟨.insufficientFunds, rfl, ?_⟩
      simp only [addPosition]
      rw [if_pos hb]
    · refine ⟨.tradingErr, rfl, ?_⟩
      simp only [addPosition]
      rw [if_neg hb, if_pos h]

/-- Witness for C10 at a concrete oversized fill (notional 2000 against
the default 1000 position limit, cash 10000). -/
theorem claim_C10_w :
    addPosition (Portfolio.init 10000 1000 (2/100)) "X" .buy 20 100 0 0
      = (Portfolio.init 10000 1000 (2/100), .error .tradingErr) :=
  (claim_C10 (Portfolio.init 10000 1000 (2/100)) "X" .buy 20 100 0 0).2.1
    (by norm_num [Portfolio.init])
    (by norm_num [Portfolio.init])

/-! ## C5 — rejection atomicity -/

/-- C5: a rejected fill is never applied in any part.  A guard
rejection of `add_position` (insufficient funds or position limit)
returns with the ledger — cash, positions, trade history — exactly the
input state, and a fill attempt rejected by the $10 minimum-trade-size
floor of `_execute_signal` returns the portfolio unchanged with no
trade event. -/
theorem claim_C5 (s : PortfolioState) (pid : String) (side : Side)
    (quantity price : ℚ) (timestamp now : ℕ)
    (commissionRate slippageRate : ℚ) (strat : Strategy)
    (port : PortfolioState) (c : ℚ) :
    ((addPosition s pid side quantity price timestamp now).2
        = .error .insufficientFunds ∨
      (addPosition s pid side quantity price timestamp now).2
        = .error .tradingErr →
      (addPosition s pid side quantity price timestamp now).1 = s)
    ∧ (strat.calcPositionSize port.cashBalance (price * (1 + slippageRate))
          ⟨.buy, c⟩ < 10 →
      executeSignal commissionRate slippageRate strat port ⟨.buy, c⟩ pid
        price timestamp now = (port, none))
    ∧ (strat.calcPositionSize port.cashBalance (price * (1 - slippageRate))
          ⟨.sell, c⟩ < 10 →
      executeSignal commissionRate slippageRate strat port ⟨.sell, c⟩ pid
        price timestamp now = (port, none)) := by
  have key : ∀ s1 r, addPosition s pid side quantity price timestamp now = (s1, r) →
      (r = Except.error PErr.insufficientFunds ∨ r = Except.error PErr.tradingErr) →
      s1 = s := by
    intro s1 r hE hr
    simp only [addPosition] at hE
    repeat' split at hE
    all_goals injection hE with h1 h2
    all_goals first
      | exact h1.symm
      | (rcases hr with hr | hr <;> rw [← h2] at hr <;> exact absurd hr (by simp))
  refine ⟨fun h => ?_, fun h => ?_, fun h => ?_⟩
  · exact key _ _ rfl h
  · simp only [executeSignal, PortfolioState.getAvailableCash]
    rw [if_pos h]
  · simp only [executeSignal, PortfolioState.getAvailableCash]
    rw [if_pos h]

/-- Witness for C5: a Long open of notional 20000 against cash 10000
is rejected leaving the state unchanged, and a proposed $5 fill is
below the minimum trade size and produces no fill. -/
theorem claim_C5_w :
    ((addPosition (Portfolio.init 10000 1000 (2/100)) "X" .buy 200 100 0 0).2
        = .error .insufficientFunds ∨
      (addPosition (Portfolio.init 10000 1000 (2/100)) "X" .buy 200 100 0 0).2
        = .error .tradingErr)
    ∧ (addPosition (Portfolio.init 10000 1000 (2/100)) "X" .buy 200 100 0 0).1
        = Portfolio.init 10000 1000 (2/100)
    ∧ executeSignal (5/1000) (1/1000)
        { name := "t", requiredHistory := 1
          generateSignal := fun _ => .ok ⟨.buy, 4/5⟩
          calcPositionSize := fun _ _ _ => 5
          shouldExitPosition := fun _ _ _ _ => .ok (false, "") }
        (Portfolio.init 10000 1000 (2/100)) ⟨.buy, 4/5⟩ "X" 100 0 0
        = (Portfolio.init 10000 1000 (2/100), none) := by
  have h := claim_C5 (Portfolio.init 10000 1000 (2/100)) "X" .buy 200 100 0 0
    (5/1000) (1/1000)
    { name := "t", requiredHistory := 1
      generateSignal := fun _ => .ok ⟨.buy, 4/5⟩
      calcPositionSize := fun _ _ _ => 5
      shouldExitPosition := fun _ _ _ _ => .ok (false, "") }
    (Portfolio.init 10000 1000 (2/100)) (4/5)
  refine ⟨Or.inl (by decide), h.1 (Or.inl (by decide)), h.2.1 (by norm_num)⟩

/-! ## C4 — partial close (corrected) and C2 — reversal -/

/-- Fixture: a long position of 10 units entered at 100. -/
def pos4 : Position :=
  { productId := "X", side := .buy, quantity := 10, entryPrice := 100
    entryTime := 0 }

/-- Fixture: a portfolio holding `pos4`, cash 9000, limit 10000. -/
def s4C : PortfolioState :=
  { initialCapital := 10000, cashBalance := 9000
    positions := [("X", pos4)], tradeHistory := []
    dailyReturns := [], portfolioValues := []
    maxPositionSize := 10000, maxPortfolioRisk := 2/100 }

/-- Counterexample to C4 as stated: partially closing 4 units of a long
10 @ 100 with a SELL at 110 (realized PnL 40) leaves cash at
9000 − 40 = 8960 — the PnL is *debited*, not credited, so the claim
"realized PnL is booked immediately into the cash balance" fails. -/
theorem claim_C4_cx :
    (addPosition s4C "X" .sell 4 110 1 1).1.cashBalance = 8960
    ∧ ¬ (addPosition s4C "X" .sell 4 110 1 1).1.cashBalance
        = s4C.cashBalance + calculatePnl pos4 110 4 := by
  decide

/-- C4 (amended): an opposite-side fill of quantity `q` smaller than
the open quantity `Q` books the realized PnL of the `q` closed units
into the trade history and into the position's accumulated
`realized_pnl`, and the remaining `Q − q` units keep the original entry
price; the cash balance is credited the PnL when the incoming fill is
a BUY (existing short) but *debited* the PnL when the incoming fill is
a SELL (existing long). -/
theorem claim_C4 (s : PortfolioState) (pid : String) (side : Side)
    (quantity price : ℚ) (timestamp now : ℕ) (pos : Position)
    (hlook : lookupPos s.positions pid = some pos)
    (hside : pos.side ≠ side)
    (hqlt : quantity < pos.quantity)
    (hg1 : ¬(side = .buy ∧ quantity * price > s.cashBalance))
    (hg2 : ¬(quantity * price > s.maxPositionSize)) :
    (addPosition s pid side quantity price timestamp now).2 =
      .ok { pos with quantity := pos.quantity - quantity
                     realizedPnl := pos.realizedPnl + calculatePnl pos price quantity }
    ∧ (addPosition s pid side quantity price timestamp now).1.positions =
      setPos s.positions pid
        { pos with quantity := pos.quantity - quantity
                   realizedPnl := pos.realizedPnl + calculatePnl pos price quantity }
    ∧ (addPosition s pid side quantity price timestamp now).1.tradeHistory =
      (recordTrade s pos price quantity (calculatePnl pos price quantity)
        now).tradeHistory
    ∧ (addPosition s pid side quantity price timestamp now).1.cashBalance =
      (if side = .buy then s.cashBalance + calculatePnl pos price quantity
       else s.cashBalance - calculatePnl pos price quantity) := by
  have hnotge : ¬ quantity ≥ pos.quantity := not_le.mpr hqlt
  have hE : addPosition s pid side quantity price timestamp now =
      (let pnl := calculatePnl pos price quantity
       let s1 := recordTrade s pos price quantity pnl now
       let updatedPos : Position :=
         { pos with quantity := pos.quantity - quantity
                    realizedPnl := pos.realizedPnl + pnl }
       let s2 := { s1 with positions := setPos s1.positions pid updatedPos }
       ((if side = .buy then
           { s2 with cashBalance := s2.cashBalance + pnl }
         else
           { s2 with cashBalance := s2.cashBalance - pnl }), .ok updatedPos)) := by
    simp only [addPosition]
    rw [if_neg hg1, if_neg hg2, hlook]
    dsimp only
    rw [if_pos hside, if_neg hnotge]
  rw [hE]
  dsimp only
  by_cases hb : side = Side.buy
  · rw [if_pos hb, if_pos hb]
    exact ⟨rfl, rfl, rfl, rfl⟩
  · rw [if_neg hb, if_neg hb]
    exact ⟨rfl, rfl, rfl, rfl⟩

/-- Witness for C4 at the fixture: SELL 4 @ 110 against the long
10 @ 100. -/
theorem claim_C4_w :
    (addPosition s4C "X" .sell 4 110 1 1).1.cashBalance =
      (if Side.sell = Side.buy then s4C.cashBalance + calculatePnl pos4 110 4
       else s4C.cashBalance - calculatePnl pos4 110 4) :=
  (claim_C4 s4C "X" .sell 4 110 1 1 pos4 (by decide) (by decide) (by decide)
    (by decide) (by decide)).2.2.2

/-- C2: an opposite-side fill of quantity `q` greater than the open
quantity `Q` fully closes the `Q` units — realizing their PnL into a
recorded trade — then stores a new position of quantity `q − Q` on the
new side with entry price equal to the fill price, and cash moves only
by the `(q − Q) * price` residual leg (debited on a BUY, credited on a
SELL).  In particular, for an existing long of 10 units entered at 100,
a SELL fill of 15 units at 90 records a close of 10 units with
PnL = −100 and leaves a new short of 5 units at 90. -/
theorem claim_C2 (s : PortfolioState) (pid : String) (side : Side)
    (quantity price : ℚ) (timestamp now : ℕ) (pos : Position)
    (hlook : lookupPos s.positions pid = some pos)
    (hside : pos.side ≠ side)
    (hqgt : pos.quantity < quantity)
    (hg1 : ¬(side = .buy ∧ quantity * price > s.cashBalance))
    (hg2 : ¬(quantity * price > s.maxPositionSize)) :
    ((addPosition s pid side quantity price timestamp now).2 =
      .ok { productId := pid, side := side
            quantity := quantity - pos.quantity
            entryPrice := price, entryTime := timestamp }
    ∧ (addPosition s pid side quantity price timestamp now).1.positions =
      setPos s.positions pid
        { productId := pid, side := side
          quantity := quantity - pos.quantity
          entryPrice := price, entryTime := timestamp }
    ∧ (addPosition s pid side quantity price timestamp now).1.tradeHistory =
      (recordTrade s pos price pos.quantity
        (calculatePnl pos price pos.quantity) now).tradeHistory
    ∧ (addPosition s pid side quantity price timestamp now).1.cashBalance =
      (if side = .buy then s.cashBalance - (quantity - pos.quantity) * price
       else s.cashBalance + (quantity - pos.quantity) * price))
    ∧ ((addPosition s4C "X" .sell 15 90 1 1).2 =
        .ok { productId := "X", side := .sell, quantity := 5
              entryPrice := 90, entryTime := 1 }
    ∧ (addPosition s4C "X" .sell 15 90 1 1).1.tradeHistory.map
        (fun t => (t.quantity, t.pnl)) = [(10, -100)]
    ∧ (addPosition s4C "X" .sell 15 90 1 1).1.cashBalance =
        s4C.cashBalance + 5 * 90) := by
  constructor
  · have hge : quantity ≥ pos.quantity := le_of_lt hqgt
    have hE : addPosition s pid side quantity price timestamp now =
        (let pnl := calculatePnl pos price pos.quantity
         let s1 := recordTrade s pos price pos.quantity pnl now
         let newPosition : Position :=
           { productId := pid, side := side
             quantity := quantity - pos.quantity
             entryPrice := price, entryTime := timestamp }
         let s2 := { s1 with positions := setPos s1.positions pid newPosition }
         ((if side = .buy then
             { s2 with cashBalance :=
                 s2.cashBalance - (quantity - pos.quantity) * price }
           else
             { s2 with cashBalance :=
                 s2.cashBalance + (quantity - pos.quantity) * price }),
          .ok newPosition)) := by
      simp only [addPosition]
      rw [if_neg hg1, if_neg hg2, hlook]
      dsimp only
      rw [if_pos hside, if_pos hge, if_pos hqgt]
    rw [hE]
    dsimp only
    by_cases hb : side = Side.buy
    · rw [if_pos hb, if_pos hb]
      exact ⟨rfl, rfl, rfl, rfl⟩
    · rw [if_neg hb, if_neg hb]
      exact ⟨rfl, rfl, rfl, rfl⟩
  · exact ⟨by decide, by decide, by decide⟩

/-- Witness for C2 at the fixture: SELL 15 @ 90 against the long
10 @ 100 yields the new short of 5 units at 90. -/
theorem claim_C2_w :
    (addPosition s4C "X" .sell 15 90 1 1).2 =
      .ok { productId := "X", side := .sell, quantity := 15 - pos4.quantity
            entryPrice := 90, entryTime := 1 } :=
  (claim_C2 s4C "X" .sell 15 90 1 1 pos4 (by decide) (by decide) (by decide)
    (by decide) (by decide)).1.1

/-! ## C3 — commission accounting (corrected) -/

/-- Reduction of `add_position` when no position exists and the guards
pass: the fresh position is stored and cash moves by the notional. -/
theorem addPosition_new (s : PortfolioState) (pid : String) (side : Side)
    (q p : ℚ) (t n : ℕ)
    (hlook : lookupPos s.positions pid = none)
    (hg1 : ¬(side = .buy ∧ q * p > s.cashBalance))
    (hg2 : ¬(q * p > s.maxPositionSize)) :
    addPosition s pid side q p t n =
      ((if side = .buy then
          { s with
            positions := setPos s.positions pid
              { productId := pid, side := side, quantity := q
                entryPrice := p, entryTime := t }
            cashBalance := s.cashBalance - q * p }
        else
          { s with
            positions := setPos s.positions pid
              { productId := pid, side := side, quantity := q
                entryPrice := p, entryTime := t }
            cashBalance := s.cashBalance + q * p }),
       .ok { productId := pid, side := side, quantity := q
             entryPrice := p, entryTime := t }) := by
  simp only [addPosition]
  rw [if_neg hg1, if_neg hg2, hlook]

/-- Fixture strategy proposing a fixed $1000 notional. -/
def strat1000 : Strategy :=
  { name := "t", requiredHistory := 1
    generateSignal := fun _ => .ok ⟨.buy, 4/5⟩
    calcPositionSize := fun _ _ _ => 1000
    shouldExitPosition := fun _ _ _ _ => .ok (false, "") }

/-- Counterexample to C3 as stated: with initial capital 10000,
commission 0.5%, slippage 0.1% and a $1000 BUY at price 100, the cash
balance afterwards is 9000, not the claimed ≈ 8995 — the $5 commission
is computed and reported but never charged against cash. -/
theorem claim_C3_cx :
    (executeSignal (5/1000) (1/1000) strat1000
        (Portfolio.init 10000 1000 (2/100)) ⟨.buy, 4/5⟩ "X" 100 0 0).1.cashBalance
      = 9000
    ∧ ¬ (executeSignal (5/1000) (1/1000) strat1000
        (Portfolio.init 10000 1000 (2/100)) ⟨.buy, 4/5⟩ "X" 100 0 0).1.cashBalance
      = 10000 - 1000 - 5 := by
  decide

/-- C3 (amended): commission equals notional × commission_rate and the
BUY affordability check includes it (`notional + commission ≤ cash`),
but commission is never applied to the cash balance: an accepted BUY
that opens a fresh position debits exactly the notional (fill price
includes slippage, `price × (1 + slippage_rate)`), and a SELL that
closes a long credits the full proceeds `quantity × fill price` with
the commission only reported in the trade event.  In the concrete
scenario (capital 10000, commission 0.5%, slippage 0.1%, $1000 BUY at
100) the fill price is 100.1, the commission $5, the quantity
1000/100.1, and cash afterwards 9000. -/
theorem claim_C3 (commissionRate slippageRate : ℚ) (strat : Strategy)
    (port : PortfolioState) (c price : ℚ) (pid : String) (t n : ℕ)
    (pos : Position) :
    ((0 ≤ commissionRate) →
      (¬ strat.calcPositionSize port.cashBalance (price * (1 + slippageRate))
          ⟨.buy, c⟩ < 10) →
      (strat.calcPositionSize port.cashBalance (price * (1 + slippageRate))
          ⟨.buy, c⟩
        + strat.calcPositionSize port.cashBalance (price * (1 + slippageRate))
            ⟨.buy, c⟩ * commissionRate ≤ port.cashBalance) →
      (price * (1 + slippageRate) ≠ 0) →
      (lookupPos port.positions pid = none) →
      (¬ strat.calcPositionSize port.cashBalance (price * (1 + slippageRate))
          ⟨.buy, c⟩ > port.maxPositionSize) →
      ((executeSignal commissionRate slippageRate strat port ⟨.buy, c⟩ pid
          price t n).1.cashBalance =
        port.cashBalance
          - strat.calcPositionSize port.cashBalance (price * (1 + slippageRate))
              ⟨.buy, c⟩
      ∧ (executeSignal commissionRate slippageRate strat port ⟨.buy, c⟩ pid
          price t n).2 =
        some { timestamp := t, action := .buyA, productId := pid
               price := price * (1 + slippageRate)
               quantity := strat.calcPositionSize port.cashBalance
                   (price * (1 + slippageRate)) ⟨.buy, c⟩
                 / (price * (1 + slippageRate))
               value := some (strat.calcPositionSize port.cashBalance
                 (price * (1 + slippageRate)) ⟨.buy, c⟩)
               commission := some (strat.calcPositionSize port.cashBalance
                   (price * (1 + slippageRate)) ⟨.buy, c⟩ * commissionRate)
               confidence := some c }))
    ∧ ((¬ strat.calcPositionSize port.cashBalance (price * (1 - slippageRate))
          ⟨.sell, c⟩ < 10) →
      (lookupPos port.positions pid = some pos) →
      (pos.side = .buy) →
      ((executeSignal commissionRate slippageRate strat port ⟨.sell, c⟩ pid
          price t n).1.cashBalance =
        port.cashBalance + pos.quantity * (price * (1 - slippageRate))
      ∧ (executeSignal commissionRate slippageRate strat port ⟨.sell, c⟩ pid
          price t n).2 =
        some { timestamp := t, action := .sellA, productId := pid
               price := price * (1 - slippageRate)
               quantity := pos.quantity
               value := some (pos.quantity * (price * (1 - slippageRate)))
               commission := some (pos.quantity * (price * (1 - slippageRate))
                 * commissionRate)
               pnl := some (calculatePnl pos (price * (1 - slippageRate))
                 pos.quantity)
               confidence := some c }))
    ∧ ((executeSignal (5/1000) (1/1000) strat1000
        (Portfolio.init 10000 1000 (2/100)) ⟨.buy, 4/5⟩ "X" 100 0 0).1.cashBalance
        = 9000
      ∧ (executeSignal (5/1000) (1/1000) strat1000
        (Portfolio.init 10000 1000 (2/100)) ⟨.buy, 4/5⟩ "X" 100 0 0).2
        = some { timestamp := 0, action := .buyA, productId := "X"
                 price := 1001/10, quantity := 10000/1001
                 value := some 1000, commission := some 5
                 confidence := some (4/5) }) := by
  refine ⟨fun hcr hsz heff hep hlook hmax => ?_, fun hsz2 hlook2 hbside => ?_,
    by decide, by decide⟩
  · have h10 : (10 : ℚ) ≤ strat.calcPositionSize port.cashBalance
        (price * (1 + slippageRate)) ⟨.buy, c⟩ := not_lt.mp hsz
    have hczr : 0 ≤ strat.calcPositionSize port.cashBalance
        (price * (1 + slippageRate)) ⟨.buy, c⟩ * commissionRate :=
      mul_nonneg (by linarith) hcr
    have hg1 : ¬(Side.buy = Side.buy ∧
        strat.calcPositionSize port.cashBalance (price * (1 + slippageRate))
            ⟨.buy, c⟩ / (price * (1 + slippageRate)) * (price * (1 + slippageRate))
          > port.cashBalance) := by
      rintro ⟨-, hgt⟩
      rw [div_mul_cancel₀ _ hep] at hgt
      linarith
    have hg2 : ¬(strat.calcPositionSize port.cashBalance
        (price * (1 + slippageRate)) ⟨.buy, c⟩ / (price * (1 + slippageRate))
          * (price * (1 + slippageRate)) > port.maxPositionSize) := by
      rw [div_mul_cancel₀ _ hep]
      exact hmax
    simp only [executeSignal, PortfolioState.getAvailableCash]
    rw [if_neg hsz, if_pos heff,
      addPosition_new port pid .buy _ _ t n hlook hg1 hg2]
    dsimp only
    rw [if_pos rfl]
    exact ⟨by dsimp only; rw [div_mul_cancel₀ _ hep], rfl⟩
  · simp only [executeSignal, PortfolioState.getAvailableCash, closePosition]
    rw [if_neg hsz2, hlook2]
    dsimp only
    rw [if_pos hbside, if_pos hbside]
    exact ⟨rfl, rfl⟩

/-- Witness for C3 at the spec's scenario: the accepted $1000 BUY
debits exactly the notional. -/
theorem claim_C3_w :
    (executeSignal (5/1000) (1/1000) strat1000
        (Portfolio.init 10000 1000 (2/100)) ⟨.buy, 4/5⟩ "X" 100 0 0).1.cashBalance
      = (Portfolio.init 10000 1000 (2/100)).cashBalance
        - strat1000.calcPositionSize
            (Portfolio.init 10000 1000 (2/100)).cashBalance
            (100 * (1 + 1/1000)) ⟨.buy, 4/5⟩ :=
  ((claim_C3 (5/1000) (1/1000) strat1000 (Portfolio.init 10000 1000 (2/100))
      (4/5) 100 "X" 0 0 pos4).1
    (by norm_num) (by decide) (by decide) (by decide) (by decide)
    (by decide)).1

/-! ## C7 — opposite-side routing -/

/-- Reduction of `add_position` in the partial-close branch. -/
theorem addPosition_partial (s : PortfolioState) (pid : String) (side : Side)
    (q p : ℚ) (t n : ℕ) (pos : Position)
    (hlook : lookupPos s.positions pid = some pos)
    (hside : pos.side ≠ side)
    (hqlt : q < pos.quantity)
    (hg1 : ¬(side = .buy ∧ q * p > s.cashBalance))
    (hg2 : ¬(q * p > s.maxPositionSize)) :
    addPosition s pid side q p t n =
      (let pnl := calculatePnl pos p q
       let s1 := recordTrade s pos p q pnl n
       let updatedPos : Position :=
         { pos with quantity := pos.quantity - q
                    realizedPnl := pos.realizedPnl + pnl }
       let s2 := { s1 with positions := setPos s1.positions pid updatedPos }
       ((if side = .buy then
           { s2 with cashBalance := s2.cashBalance + pnl }
         else
           { s2 with cashBalance := s2.cashBalance - pnl }), .ok updatedPos)) := by
  have hnotge : ¬ q ≥ pos.quantity := not_le.mpr hqlt
  simp only [addPosition]
  rw [if_neg hg1, if_neg hg2, hlook]
  dsimp only
  rw [if_pos hside, if_neg hnotge]

/-- Reduction of `add_position` in the reversal branch. -/
theorem addPosition_reverse (s : PortfolioState) (pid : String) (side : Side)
    (q p : ℚ) (t n : ℕ) (pos : Position)
    (hlook : lookupPos s.positions pid = some pos)
    (hside : pos.side ≠ side)
    (hqgt : pos.quantity < q)
    (hg1 : ¬(side = .buy ∧ q * p > s.cashBalance))
    (hg2 : ¬(q * p > s.maxPositionSize)) :
    addPosition s pid side q p t n =
      (let pnl := calculatePnl pos p pos.quantity
       let s1 := recordTrade s pos p pos.quantity pnl n
       let newPosition : Position :=
         { productId := pid, side := side, quantity := q - pos.quantity
           entryPrice := p, entryTime := t }
       let s2 := { s1 with positions := setPos s1.positions pid newPosition }
       ((if side = .buy then
           { s2 with cashBalance := s2.cashBalance - (q - pos.quantity) * p }
         else
           { s2 with cashBalance := s2.cashBalance + (q - pos.quantity) * p }),
        .ok newPosition)) := by
  have hge : q ≥ pos.quantity := le_of_lt hqgt
  simp only [addPosition]
  rw [if_neg hg1, if_neg hg2, hlook]
  dsimp only
  rw [if_pos hside, if_pos hge, if_pos hqgt]

/-- Reduction of `add_position` in the same-quantity full-close branch:
the trade is recorded, the position deleted, cash moved by ±PnL, and
then `return self.positions[product_id]` raises `KeyError`. -/
theorem addPosition_fullClose (s : PortfolioState) (pid : String) (side : Side)
    (q p : ℚ) (t n : ℕ) (pos : Position)
    (hlook : lookupPos s.positions pid = some pos)
    (hside : pos.side ≠ side)
    (hqeq : q = pos.quantity)
    (hg1 : ¬(side = .buy ∧ q * p > s.cashBalance))
    (hg2 : ¬(q * p > s.maxPositionSize)) :
    addPosition s pid side q p t n =
      (let pnl := calculatePnl pos p pos.quantity
       let s1 := recordTrade s pos p pos.quantity pnl n
       let s2 := { s1 with positions := erasePos s1.positions pid }
       ((if side = .buy then
           { s2 with cashBalance := s2.cashBalance + pnl }
         else
           { s2 with cashBalance := s2.cashBalance - pnl }),
        .error .keyErr)) := by
  have hge : q ≥ pos.quantity := le_of_eq hqeq.symm
  have hngt : ¬ q > pos.quantity := not_lt.mpr (le_of_eq hqeq)
  simp only [addPosition]
  rw [if_neg hg1, if_neg hg2, hlook]
  dsimp only
  rw [if_pos hside, if_pos hge, if_neg hngt]

/-- C7: a BUY processed by `_execute_signal` while a short position
exists is applied through `add_position`'s opposite-side branch —
partial close, full close, or reversal, according to the quantity
relation, always recording the closing trade — and a SELL processed
while a long position exists is applied as a full close through
`close_position`, crediting the proceeds; in neither case is a fresh
independent position opened on top of the existing exposure. -/
theorem claim_C7 (commissionRate slippageRate : ℚ) (strat : Strategy)
    (port : PortfolioState) (c price : ℚ) (pid : String) (t n : ℕ)
    (pos : Position)
    (hnd : (port.positions.map Prod.fst).Nodup)
    (hlook : lookupPos port.positions pid = some pos) :
    (pos.side = .sell →
      ∀ q, q = strat.calcPositionSize port.cashBalance
          (price * (1 + slippageRate)) ⟨.buy, c⟩ / (price * (1 + slippageRate)) →
      ¬ strat.calcPositionSize port.cashBalance (price * (1 + slippageRate))
          ⟨.buy, c⟩ < 10 →
      strat.calcPositionSize port.cashBalance (price * (1 + slippageRate))
          ⟨.buy, c⟩
        + strat.calcPositionSize port.cashBalance (price * (1 + slippageRate))
            ⟨.buy, c⟩ * commissionRate ≤ port.cashBalance →
      ¬(q * (price * (1 + slippageRate)) > port.cashBalance) →
      ¬(q * (price * (1 + slippageRate)) > port.maxPositionSize) →
      ((q < pos.quantity →
        lookupPos (executeSignal commissionRate slippageRate strat port
            ⟨.buy, c⟩ pid price t n).1.positions pid =
          some { pos with
                   quantity := pos.quantity - q
                   realizedPnl := pos.realizedPnl
                     + calculatePnl pos (price * (1 + slippageRate)) q }
        ∧ (executeSignal commissionRate slippageRate strat port ⟨.buy, c⟩ pid
            price t n).1.tradeHistory =
          (recordTrade port pos (price * (1 + slippageRate)) q
            (calculatePnl pos (price * (1 + slippageRate)) q) n).tradeHistory)
      ∧ (q = pos.quantity →
        lookupPos (executeSignal commissionRate slippageRate strat port
            ⟨.buy, c⟩ pid price t n).1.positions pid = none
        ∧ (executeSignal commissionRate slippageRate strat port ⟨.buy, c⟩ pid
            price t n).1.tradeHistory =
          (recordTrade port pos (price * (1 + slippageRate)) pos.quantity
            (calculatePnl pos (price * (1 + slippageRate)) pos.quantity)
            n).tradeHistory)
      ∧ (pos.quantity < q →
        lookupPos (executeSignal commissionRate slippageRate strat port
            ⟨.buy, c⟩ pid price t n).1.positions pid =
          some { productId := pid, side := .buy
                 quantity := q - pos.quantity
                 entryPrice := price * (1 + slippageRate), entryTime := t }
        ∧ (executeSignal commissionRate slippageRate strat port ⟨.buy, c⟩ pid
            price t n).1.tradeHistory =
          (recordTrade port pos (price * (1 + slippageRate)) pos.quantity
            (calculatePnl pos (price * (1 + slippageRate)) pos.quantity)
            n).tradeHistory)))
    ∧ (pos.side = .buy →
      ¬ strat.calcPositionSize port.cashBalance (price * (1 - slippageRate))
          ⟨.sell, c⟩ < 10 →
      (lookupPos (executeSignal commissionRate slippageRate strat port
          ⟨.sell, c⟩ pid price t n).1.positions pid = none
      ∧ (executeSignal commissionRate slippageRate strat port ⟨.sell, c⟩ pid
          price t n).1.tradeHistory =
        (recordTrade port pos (price * (1 - slippageRate)) pos.quantity
          (calculatePnl pos (price * (1 - slippageRate)) pos.quantity)
          n).tradeHistory
      ∧ (executeSignal commissionRate slippageRate strat port ⟨.sell, c⟩ pid
          price t n).1.cashBalance =
        port.cashBalance + pos.quantity * (price * (1 - slippageRate)))) := by
  constructor
  · intro hshort q hqdef hsz heff hg1q hg2q
    have hside : pos.side ≠ Side.buy := by rw [hshort]; decide
    have hg1 : ¬(Side.buy = Side.buy ∧
        q * (price * (1 + slippageRate)) > port.cashBalance) := by
      rintro ⟨-, hgt⟩; exact hg1q hgt
    subst hqdef
    refine ⟨fun hqlt => ?_, fun hqeq => ?_, fun hqgt => ?_⟩
    · simp only [executeSignal, PortfolioState.getAvailableCash]
      rw [if_neg hsz, if_pos heff,
        addPosition_partial port pid .buy _ _ t n pos hlook hside hqlt hg1 hg2q]
      dsimp only
      rw [if_pos rfl]
      exact ⟨lookupPos_setPos_self _ _ _, rfl⟩
    · simp only [executeSignal, PortfolioState.getAvailableCash]
      rw [if_neg hsz, if_pos heff,
        addPosition_fullClose port pid .buy _ _ t n pos hlook hside hqeq hg1 hg2q]
      dsimp only
      rw [if_pos rfl]
      exact ⟨lookupPos_erasePos_self _ _ hnd, rfl⟩
    · simp only [executeSignal, PortfolioState.getAvailableCash]
      rw [if_neg hsz, if_pos heff,
        addPosition_reverse port pid .buy _ _ t n pos hlook hside hqgt hg1 hg2q]
      dsimp only
      rw [if_pos rfl]
      exact ⟨lookupPos_setPos_self _ _ _, rfl⟩
  · intro hlong hsz2
    simp only [executeSignal, PortfolioState.getAvailableCash, closePosition]
    rw [if_neg hsz2, hlook]
    dsimp only
    rw [if_pos hlong, if_pos hlong]
    exact ⟨lookupPos_erasePos_self _ _ hnd, rfl, rfl⟩

/-- Witness for C7: a SELL with an open long of 10 @ 100 fully closes
it — no position remains. -/
theorem claim_C7_w :
    lookupPos (executeSignal (5/1000) (1/1000) strat1000 s4C
        ⟨.sell, 4/5⟩ "X" 100 1 1).1.positions "X" = none :=
  ((claim_C7 (5/1000) (1/1000) strat1000 s4C (4/5) 100 "X" 1 1 pos4
    (by decide) (by decide)).2 (by decide) (by decide)).1

/-! ## C9 — degenerate metrics -/

/-- C9: the metrics computation is total on degenerate inputs — with
an empty trade log it returns `win_rate = 0`, `profit_factor = 0`,
`avg_win = 0` and `avg_loss = 0`, and whenever the per-step returns
have zero variance (zero standard deviation) the Sharpe ratio is 0
instead of a division by zero. -/
theorem claim_C9 (initialCapital : ℚ) (values : List Snapshot)
    (signals : List SignalRecord) (trades : List TradeEvent)
    (data : List Bar) (strat : Strategy) :
    ((calculateResults initialCapital values signals [] data strat).winRate = 0
    ∧ (calculateResults initialCapital values signals [] data
        strat).profitFactor = 0
    ∧ (calculateResults initialCapital values signals [] data strat).avgWin = 0
    ∧ (calculateResults initialCapital values signals [] data strat).avgLoss = 0)
    ∧ (sqDevSum (pctChanges (values.map (fun v => v.portfolioValue))) = 0 →
      (calculateResults initialCapital values signals trades data strat).sharpe
        = .num 0) := by
  constructor
  · refine ⟨?_, ?_, ?_, ?_⟩ <;> simp [calculateResults]
  · intro h
    have hcond : ¬(2 ≤ (pctChanges (values.map
          (fun v => v.portfolioValue))).length
        ∧ 0 < sqDevSum (pctChanges (values.map
          (fun v => v.portfolioValue)))) := by
      rintro ⟨-, hpos⟩
      rw [h] at hpos
      exact lt_irrefl _ hpos
    simp only [calculateResults]
    rw [if_neg hcond]

/-- Witness for C9 at a flat two-point equity curve (zero-variance
returns). -/
theorem claim_C9_w :
    (calculateResults 100
        [{ timestamp := 0, portfolioValue := 100, cash := 100
           positionsValue := 0 },
         { timestamp := 1, portfolioValue := 100, cash := 100
           positionsValue := 0 }]
        [] [] [] strat1000).sharpe = .num 0 :=
  (claim_C9 100
    [{ timestamp := 0, portfolioValue := 100, cash := 100
       positionsValue := 0 },
     { timestamp := 1, portfolioValue := 100, cash := 100
       positionsValue := 0 }]
    [] [] [] strat1000).2 (by decide)

/-! ## C8 — per-bar failure resilience (corrected) -/

/-- A flat OHLCV bar at time `i` and price `p`. -/
def barAt (i : ℕ) (p : ℚ) : Bar :=
  { time := i, openP := p, high := p, low := p, close := p, volume := 1 }

/-- Fixture strategy whose exit check always raises. -/
def stratC8 : Strategy :=
  { name := "t8", requiredHistory := 1
    generateSignal := fun _ => .ok ⟨.buy, 1⟩
    calcPositionSize := fun _ _ _ => 100
    shouldExitPosition := fun _ _ _ _ => .error () }

/-- Two flat bars at price 100. -/
def dataC8 : List Bar := [barAt 0 100, barAt 1 100]

/-- Counterexample to C8 as stated: a strategy whose exit-check call
raises at a single bar aborts the whole run (`run_backtest` wraps the
exception into a `BacktestError`) instead of logging it and
continuing. -/
theorem claim_C8_cx :
    (runBacktest 10000 0 0 stratC8 dataC8 "X"
      (Portfolio.init 10000 1000 (2/100)) 0).2 = .error () := by
  decide

/-- C8 (amended): a bar whose *signal-generation* call raises is
logged and skipped — the bar still contributes its mark-to-market and
its equity snapshot (taken before the strategy call), no signal or
trade is recorded, and the loop continues; but a bar whose *exit-check*
call raises aborts the run (the exception propagates out of the bar
loop). -/
theorem claim_C8 (commissionRate slippageRate : ℚ) (strat : Strategy)
    (pid : String) (now : ℕ) (st : LoopState) (hist : List Bar) (bar : Bar) :
    (strat.generateSignal hist = .error () →
      processBar commissionRate slippageRate strat pid now st (hist, bar) =
        .ok { st with
              port := updatePositions st.port [(pid, bar.close)]
              values := st.values ++
                [{ timestamp := bar.time
                   portfolioValue :=
                     (updatePositions st.port [(pid, bar.close)]).getTotalValue
                   cash :=
                     (updatePositions st.port [(pid, bar.close)]).cashBalance
                   positionsValue :=
                     (updatePositions st.port
                       [(pid, bar.close)]).getTotalInvested }] })
    ∧ (∀ sig : TradingSignal, strat.generateSignal hist = .ok sig →
      ∀ pos : Position,
      lookupPos (if sig.confidence > 1/2 then
            executeSignal commissionRate slippageRate strat
              (updatePositions st.port [(pid, bar.close)]) sig pid bar.close
              bar.time now
          else (updatePositions st.port [(pid, bar.close)],
            none)).1.positions pid = some pos →
      strat.shouldExitPosition hist pos.entryPrice bar.close pos.side
        = .error () →
      ∃ st2, processBar commissionRate slippageRate strat pid now st
        (hist, bar) = .error st2) := by
  constructor
  · intro herr
    simp only [processBar]
    rw [herr]
  · intro sig hok pos hlook2 hexit
    simp only [processBar]
    rw [hok]
    dsimp only
    rw [hlook2]
    dsimp only
    rw [hexit]
    exact ⟨_, rfl⟩

/-- Fixture strategy whose signal generation always raises. -/
def stratW8 : Strategy :=
  { name := "w8", requiredHistory := 1
    generateSignal := fun _ => .error ()
    calcPositionSize := fun _ _ _ => 100
    shouldExitPosition := fun _ _ _ _ => .ok (false, "") }

/-- Witness for C8: a failing signal bar only marks and snapshots. -/
theorem claim_C8_w :
    processBar 0 0 stratW8 "X" 0
      { port := Portfolio.init 10000 1000 (2/100), signals := []
        values := [], trades := [] } ([barAt 0 100], barAt 0 100) =
      .ok { port := updatePositions (Portfolio.init 10000 1000 (2/100))
              [("X", (100 : ℚ))]
            signals := []
            values := [{ timestamp := 0
                         portfolioValue :=
                           (updatePositions (Portfolio.init 10000 1000 (2/100))
                             [("X", (100 : ℚ))]).getTotalValue
                         cash :=
                           (updatePositions (Portfolio.init 10000 1000 (2/100))
                             [("X", (100 : ℚ))]).cashBalance
                         positionsValue :=
                           (updatePositions (Portfolio.init 10000 1000 (2/100))
                             [("X", (100 : ℚ))]).getTotalInvested }]
            trades := [] } :=
  (claim_C8 0 0 stratW8 "X" 0
    { port := Portfolio.init 10000 1000 (2/100), signals := []
      values := [], trades := [] } [barAt 0 100] (barAt 0 100)).1 rfl

/-! ## C1 — conservation law -/

/-- Sum of entry notionals (`entry_price * quantity`) over the open
positions: the cost basis carried by the ledger. -/
def entryNotional (s : PortfolioState) : ℚ :=
  (s.positions.map (fun pp => pp.2.entryPrice * pp.2.quantity)).sum

theorem lookupPos_mem (ps : List (String × Position)) (pid : String)
    (pos : Position) (h : lookupPos ps pid = some pos) : (pid, pos) ∈ ps := by
  induction ps with
  | nil => simp [lookupPos] at h
  | cons hd tl ih =>
    simp only [lookupPos] at h
    by_cases hk : hd.1 = pid
    · rw [if_pos hk] at h
      have hpair : hd = (pid, pos) := Prod.ext hk (Option.some.inj h)
      rw [hpair]
      exact List.mem_cons_self _ _
    · rw [if_neg hk] at h
      exact List.mem_cons_of_mem _ (ih h)

theorem setPos_of_lookup_none (ps : List (String × Position)) (pid : String)
    (p : Position) (h : lookupPos ps pid = none) :
    setPos ps pid p = ps ++ [(pid, p)] := by
  induction ps with
  | nil => simp [setPos]
  | cons hd tl ih =>
    simp only [lookupPos] at h
    by_cases hk : hd.1 = pid
    · rw [if_pos hk] at h
      exact absurd h (by simp)
    · rw [if_neg hk] at h
      simp [setPos, hk, ih h]

theorem sum_map_setPos (ps : List (String × Position)) (pid : String)
    (p' pos : Position) (f : String × Position → ℚ)
    (hlook : lookupPos ps pid = some pos) :
    ((setPos ps pid p').map f).sum =
      (ps.map f).sum - f (pid, pos) + f (pid, p') := by
  induction ps with
  | nil => simp [lookupPos] at hlook
  | cons hd tl ih =>
    simp only [lookupPos] at hlook
    by_cases hk : hd.1 = pid
    · rw [if_pos hk] at hlook
      have hv : hd.2 = pos := Option.some.inj hlook
      simp only [setPos, if_pos hk, List.map_cons, List.sum_cons]
      rw [← hk, ← hv]
      ring
    · rw [if_neg hk] at hlook
      simp only [setPos, if_neg hk, List.map_cons, List.sum_cons, ih hlook]
      ring

theorem sum_map_erasePos (ps : List (String × Position)) (pid : String)
    (pos : Position) (f : String × Position → ℚ)
    (hlook : lookupPos ps pid = some pos) :
    ((erasePos ps pid).map f).sum = (ps.map f).sum - f (pid, pos) := by
  induction ps with
  | nil => simp [lookupPos] at hlook
  | cons hd tl ih =>
    simp only [lookupPos] at hlook
    by_cases hk : hd.1 = pid
    · rw [if_pos hk] at hlook
      have hv : hd.2 = pos := Option.some.inj hlook
      simp only [erasePos, if_pos hk, List.map_cons, List.sum_cons]
      rw [← hk, ← hv]
      ring
    · rw [if_neg hk] at hlook
      simp only [erasePos, if_neg hk, List.map_cons, List.sum_cons, ih hlook]
      ring

theorem mem_setPos (ps : List (String × Position)) (pid : String)
    (p' : Position) (pp : String × Position) (h : pp ∈ setPos ps pid p') :
    pp ∈ ps ∨ pp = (pid, p') := by
  induction ps with
  | nil =>
    simp only [setPos, List.mem_singleton] at h
    exact Or.inr h
  | cons hd tl ih =>
    by_cases hk : hd.1 = pid
    · simp only [setPos, if_pos hk, List.mem_cons] at h
      rcases h with h | h
      · right
        rw [h, ← hk]
      · exact Or.inl (List.mem_cons_of_mem _ h)
    · simp only [setPos, if_neg hk, List.mem_cons] at h
      rcases h with h | h
      · exact Or.inl (by simp [h])
      · rcases ih h with h2 | h2
        · exact Or.inl (List.mem_cons_of_mem _ h2)
        · exact Or.inr h2

theorem mem_erasePos (ps : List (String × Position)) (pid : String)
    (pp : String × Position) (h : pp ∈ erasePos ps pid) : pp ∈ ps := by
  induction ps with
  | nil => simp [erasePos] at h
  | cons hd tl ih =>
    by_cases hk : hd.1 = pid
    · simp only [erasePos, if_pos hk] at h
      exact List.mem_cons_of_mem _ h
    · simp only [erasePos, if_neg hk, List.mem_cons] at h
      rcases h with h | h
      · simp [h]
      · exact List.mem_cons_of_mem _ (ih h)

theorem sum_map_add_split {α : Type _} (l : List α) (f g : α → ℚ) :
    (l.map (fun x => f x + g x)).sum = (l.map f).sum + (l.map g).sum := by
  induction l with
  | nil => simp
  | cons hd tl ih => simp [ih]; ring

/-- Guard reduction: a BUY whose notional exceeds cash is rejected. -/
theorem addPosition_guardFunds (s : PortfolioState) (pid : String)
    (side : Side) (quantity price : ℚ) (timestamp now : ℕ)
    (h : side = .buy ∧ quantity * price > s.cashBalance) :
    addPosition s pid side quantity price timestamp now =
      (s, .error .insufficientFunds) := by
  simp only [addPosition]
  rw [if_pos h]

/-- Guard reduction: a fill whose notional exceeds the position limit
is rejected. -/
theorem addPosition_guardLimit (s : PortfolioState) (pid : String)
    (side : Side) (quantity price : ℚ) (timestamp now : ℕ)
    (h1 : ¬(side = .buy ∧ quantity * price > s.cashBalance))
    (h2 : quantity * price > s.maxPositionSize) :
    addPosition s pid side quantity price timestamp now =
      (s, .error .tradingErr) := by
  simp only [addPosition]
  rw [if_neg h1, if_pos h2]

/-- Reduction of `add_position` in the same-side averaging branch. -/
theorem addPosition_addTo (s : PortfolioState) (pid : String) (side : Side)
    (q p : ℚ) (t n : ℕ) (pos : Position)
    (hlook : lookupPos s.positions pid = some pos)
    (hside : pos.side = side)
    (hg1 : ¬(side = .buy ∧ q * p > s.cashBalance))
    (hg2 : ¬(q * p > s.maxPositionSize)) :
    addPosition s pid side q p t n =
      (let totalValue := pos.quantity * pos.entryPrice + q * p
       let totalQuantity := pos.quantity + q
       let updatedPos :=
         { pos with entryPrice := totalValue / totalQuantity
                    quantity := totalQuantity }
       let s1 := { s with positions := setPos s.positions pid updatedPos }
       ((if side = .buy then
           { s1 with cashBalance := s1.cashBalance - q * p }
         else
           { s1 with cashBalance := s1.cashBalance + q * p }),
        .ok updatedPos)) := by
  simp only [addPosition]
  rw [if_neg hg1, if_neg hg2, hlook]
  dsimp only
  rw [if_neg (not_not_intro hside)]

/-- Reduction of `close_position` when the position exists. -/
theorem closePosition_some (s : PortfolioState) (pid : String) (p : ℚ)
    (n : ℕ) (pos : Position)
    (hlook : lookupPos s.positions pid = some pos) :
    closePosition s pid p n =
      (let pnl := calculatePnl pos p pos.quantity
       let s1 := recordTrade s pos p pos.quantity pnl n
       let s2 :=
         if pos.side = .buy then
           { s1 with cashBalance := s1.cashBalance + pos.quantity * p }
         else
           { s1 with cashBalance := s1.cashBalance + pnl }
       ({ s2 with positions := erasePos s2.positions pid }, some pnl)) := by
  simp only [closePosition]
  rw [hlook]

/-- Reduction of `close_position` when no position exists. -/
theorem closePosition_none (s : PortfolioState) (pid : String) (p : ℚ)
    (n : ℕ) (hlook : lookupPos s.positions pid = none) :
    closePosition s pid p n = (s, none) := by
  simp only [closePosition]
  rw [hlook]

/-- One ledger operation of a long-only history: a BUY fill routed
through `add_position`, a full close routed through `close_position`,
or a mark-to-market step. -/
inductive FillOp where
  | openBuy (pid : String) (quantity price : ℚ) (timestamp now : ℕ)
  | closeL (pid : String) (price : ℚ) (now : ℕ)
  | mark (prices : List (String × ℚ))
deriving DecidableEq, Repr

/-- Apply one operation to the ledger (keeping the state, whether the
fill was accepted or rejected). -/
def applyOp (s : PortfolioState) : FillOp → PortfolioState
  | .openBuy pid q p t n => (addPosition s pid .buy q p t n).1
  | .closeL pid p n => (closePosition s pid p n).1
  | .mark prices => updatePositions s prices

/-- Well-formedness of an operation: fills carry a positive quantity
(the data-model invariant "quantity is strictly positive"). -/
def opOK : FillOp → Bool
  | .openBuy _ q _ _ _ => decide (0 < q)
  | _ => true

/-- The inductive ledger invariant of a long-only history: every open
position is a long with positive quantity, and cash plus carried cost
basis equals initial capital plus the realized PnL of the recorded
trades. -/
structure LedgerInv (s : PortfolioState) : Prop where
  sides : ∀ pp ∈ s.positions, pp.2.side = Side.buy
  qpos : ∀ pp ∈ s.positions, 0 < pp.2.quantity
  book : s.cashBalance + entryNotional s = s.initialCapital + realizedPnlSum s

theorem entryNotional_updatePositions (s : PortfolioState)
    (prices : List (String × ℚ)) :
    entryNotional (updatePositions s prices) = entryNotional s := by
  simp only [entryNotional, updatePositions, List.map_map]
  refine congrArg List.sum (List.map_congr_left ?_)
  intro pp _
  cases hl : prices.lookup pp.1 <;>
    simp [Function.comp, hl, Position.updateCurrentPrice]

theorem ledgerInv_init (C0 maxPos risk : ℚ) :
    LedgerInv (Portfolio.init C0 maxPos risk) := by
  refine ⟨?_, ?_, ?_⟩ <;> simp [Portfolio.init, entryNotional, realizedPnlSum]

theorem ledgerInv_applyOp (s : PortfolioState) (op : FillOp)
    (hop : opOK op = true) (hinv : LedgerInv s) :
    LedgerInv (applyOp s op) := by
  cases op with
  | openBuy pid q p t n =>
    have hq : 0 < q := by simpa [opOK] using hop
    by_cases hg1 : Side.buy = Side.buy ∧ q * p > s.cashBalance
    · simp only [applyOp, addPosition_guardFunds s pid .buy q p t n hg1]
      exact hinv
    · by_cases hg2 : q * p > s.maxPositionSize
      · simp only [applyOp, addPosition_guardLimit s pid .buy q p t n hg1 hg2]
        exact hinv
      · cases hl : lookupPos s.positions pid with
        | none =>
          simp only [applyOp, addPosition_new s pid .buy q p t n hl hg1 hg2]
          simp only [if_true]
          have happ := setPos_of_lookup_none s.positions pid
            { productId := pid, side := .buy, quantity := q
              entryPrice := p, entryTime := t } hl
          refine ⟨?_, ?_, ?_⟩
          · intro pp hpp
            simp only [happ, List.mem_append, List.mem_singleton] at hpp
            rcases hpp with hpp | hpp
            · exact hinv.sides pp hpp
            · rw [hpp]
          · intro pp hpp
            simp only [happ, List.mem_append, List.mem_singleton] at hpp
            rcases hpp with hpp | hpp
            · exact hinv.qpos pp hpp
            · rw [hpp]
              exact hq
          · have hbook := hinv.book
            simp only [entryNotional, realizedPnlSum, happ] at hbook ⊢
            simp only [List.map_append, List.sum_append, List.map_cons,
              List.sum_cons, List.map_nil, List.sum_nil]
            linarith
        | some pos =>
          have hposmem := lookupPos_mem s.positions pid pos hl
          have hside : pos.side = Side.buy := hinv.sides (pid, pos) hposmem
          have hQ : 0 < pos.quantity := hinv.qpos (pid, pos) hposmem
          simp only [applyOp,
            addPosition_addTo s pid .buy q p t n pos hl hside hg1 hg2]
          simp only [if_true]
          have hsum := sum_map_setPos s.positions pid
            { pos with
                entryPrice := (pos.quantity * pos.entryPrice + q * p)
                  / (pos.quantity + q)
                quantity := pos.quantity + q }
            pos (fun pp => pp.2.entryPrice * pp.2.quantity) hl
          refine ⟨?_, ?_, ?_⟩
          · intro pp hpp
            rcases mem_setPos _ _ _ _ hpp with hpp | hpp
            · exact hinv.sides pp hpp
            · rw [hpp]
              exact hside
          · intro pp hpp
            rcases mem_setPos _ _ _ _ hpp with hpp | hpp
            · exact hinv.qpos pp hpp
            · rw [hpp]
              linarith
          · have hbook := hinv.book
            have htq : pos.quantity + q ≠ 0 := by positivity
            simp only [entryNotional, realizedPnlSum] at hbook ⊢
            rw [hsum]
            dsimp only
            rw [div_mul_cancel₀ _ htq]
            linarith
  | closeL pid p n =>
    cases hl : lookupPos s.positions pid with
    | none =>
      simp only [applyOp, closePosition_none s pid p n hl]
      exact hinv
    | some pos =>
      have hposmem := lookupPos_mem s.positions pid pos hl
      have hside : pos.side = Side.buy := hinv.sides (pid, pos) hposmem
      simp only [applyOp, closePosition_some s pid p n pos hl]
      rw [if_pos hside]
      have hsum := sum_map_erasePos s.positions pid pos
        (fun pp => pp.2.entryPrice * pp.2.quantity) hl
      refine ⟨?_, ?_, ?_⟩
      · intro pp hpp
        exact hinv.sides pp (mem_erasePos _ _ _ hpp)
      · intro pp hpp
        exact hinv.qpos pp (mem_erasePos _ _ _ hpp)
      · have hbook := hinv.book
        simp only [entryNotional, realizedPnlSum, recordTrade] at hbook ⊢
        rw [hsum]
        simp only [List.map_append, List.sum_append, List.map_cons,
          List.sum_cons, List.map_nil, List.sum_nil]
        simp only [calculatePnl, hside]
        linarith
  | mark prices =>
    refine ⟨?_, ?_, ?_⟩
    · intro pp hpp
      simp only [applyOp, updatePositions, List.mem_map] at hpp
      obtain ⟨pp0, hpp0, heq⟩ := hpp
      have hs := hinv.sides pp0 hpp0
      cases hlp : prices.lookup pp0.1 <;>
        rw [hlp] at heq <;>
        simp only [← heq] <;>
        simp [Position.updateCurrentPrice, hs]
    · intro pp hpp
      simp only [applyOp, updatePositions, List.mem_map] at hpp
      obtain ⟨pp0, hpp0, heq⟩ := hpp
      have hs := hinv.qpos pp0 hpp0
      cases hlp : prices.lookup pp0.1 <;>
        rw [hlp] at heq <;>
        simp only [← heq] <;>
        simp [Position.updateCurrentPrice, hs]
    · have hbook := hinv.book
      show (updatePositions s prices).cashBalance
          + entryNotional (updatePositions s prices) = _
      rw [entryNotional_updatePositions]
      exact hbook

theorem ledgerInv_foldl (ops : List FillOp) (hops : ops.all opOK = true)
    (s : PortfolioState) (hinv : LedgerInv s) :
    LedgerInv (ops.foldl applyOp s) := by
  induction ops generalizing s with
  | nil => exact hinv
  | cons op rest ih =>
    simp only [List.all_cons, Bool.and_eq_true] at hops
    exact ih hops.2 _ (ledgerInv_applyOp s op hops.1 hinv)

/-- After a mark covering every open position, the invariant yields
the conservation law. -/
theorem conservation_of_inv_mark (s : PortfolioState)
    (prices : List (String × ℚ)) (hinv : LedgerInv s)
    (hcover : ∀ pp ∈ s.positions, (prices.lookup pp.1).isSome = true) :
    conservation (updatePositions s prices) := by
  have key : ∀ pp ∈ s.positions,
      (match prices.lookup pp.1 with
        | some price => (pp.1, pp.2.updateCurrentPrice price)
        | none => pp).2.getMarketValue =
      (match prices.lookup pp.1 with
        | some price => (pp.1, pp.2.updateCurrentPrice price)
        | none => pp).2.unrealizedPnl.getD 0
      + pp.2.entryPrice * pp.2.quantity := by
    intro pp hpp
    have hs := hinv.sides pp hpp
    cases hlp : prices.lookup pp.1 with
    | none => simpa [hlp] using hcover pp hpp
    | some c =>
      simp only [hlp, Position.getMarketValue, Position.updateCurrentPrice,
        Option.getD_some, hs]
      ring
  unfold conservation PortfolioState.getTotalValue
    PortfolioState.getTotalInvested
  have hmv : ((updatePositions s prices).positions.map
        (fun pp => pp.2.getMarketValue)).sum =
      unrealizedPnlSum (updatePositions s prices) + entryNotional s := by
    simp only [unrealizedPnlSum, entryNotional, updatePositions, List.map_map]
    rw [← sum_map_add_split]
    refine congrArg List.sum (List.map_congr_left ?_)
    intro pp hpp
    exact key pp hpp
  rw [hmv]
  have hbook := hinv.book
  have hcash : (updatePositions s prices).cashBalance = s.cashBalance := rfl
  have hic : (updatePositions s prices).initialCapital = s.initialCapital := rfl
  have hrs : realizedPnlSum (updatePositions s prices) = realizedPnlSum s := rfl
  rw [hcash, hic, hrs]
  linarith

/-- Counterexample to C1 as stated: opening a short (SELL) of 1 unit
at 100 credits cash with the notional while the short's market value
is also counted positively, so after marking at 100 the total value is
10200 against a right-hand side of 10000. -/
theorem claim_C1_cx :
    ¬ conservation (updatePositions
        (addPosition (Portfolio.init 10000 1000 (2/100)) "X" .sell 1 100 0
          0).1 [("X", 100)]) := by
  decide

/-- C1 (amended): the conservation law
`cash + Σ market_value(open) = initial_capital + Σ realized_pnl +
Σ unrealized_pnl` holds after every covering mark step for every
long-only history: any sequence of positive-quantity BUY fills
(`add_position`, accepted or rejected), full closes
(`close_position`), and mark-to-market steps, starting from a fresh
portfolio.  (It fails once a short position is opened, once a long is
partially closed, or once a long is fully closed through
`add_position` — see the counterexample.) -/
theorem claim_C1 (C0 maxPos risk : ℚ) (ops : List FillOp)
    (prices : List (String × ℚ))
    (hops : ops.all opOK = true)
    (hcover : ∀ pp ∈ (ops.foldl applyOp
        (Portfolio.init C0 maxPos risk)).positions,
      (prices.lookup pp.1).isSome = true) :
    conservation (updatePositions
      (ops.foldl applyOp (Portfolio.init C0 maxPos risk)) prices) :=
  conservation_of_inv_mark _ _
    (ledgerInv_foldl ops hops _ (ledgerInv_init C0 maxPos risk)) hcover

/-- Witness for C1: open a long of 1 unit at 5, then mark at 7. -/
theorem claim_C1_w :
    conservation (updatePositions
      ([FillOp.openBuy "X" 1 5 0 0].foldl applyOp
        (Portfolio.init 10000 1000 (2/100))) [("X", 7)]) :=
  claim_C1 10000 1000 (2/100) [.openBuy "X" 1 5 0 0] [("X", 7)]
    (by decide) (by decide)

/-! ## C6 — idempotent reset / deterministic reports

The only nondeterministic input of the Python code is the wall clock
(`datetime.now()`), which flows exclusively into `trade_history`
records, and `trade_history` is never read by the engine or the
metrics.  We prove this by showing every ledger operation commutes
with erasing the trade history (up to the erased history), so two runs
at different clock values produce identical reports. -/

/-- Forget the trade history of a portfolio state. -/
def eraseTrades (s : PortfolioState) : PortfolioState :=
  { s with tradeHistory := [] }

@[simp] theorem eraseTrades_initialCapital (s : PortfolioState) :
    (eraseTrades s).initialCapital = s.initialCapital := rfl

@[simp] theorem eraseTrades_cashBalance (s : PortfolioState) :
    (eraseTrades s).cashBalance = s.cashBalance := rfl

@[simp] theorem eraseTrades_positions (s : PortfolioState) :
    (eraseTrades s).positions = s.positions := rfl

@[simp] theorem eraseTrades_maxPositionSize (s : PortfolioState) :
    (eraseTrades s).maxPositionSize = s.maxPositionSize := rfl

@[simp] theorem eraseTrades_maxPortfolioRisk (s : PortfolioState) :
    (eraseTrades s).maxPortfolioRisk = s.maxPortfolioRisk := rfl

@[simp] theorem eraseTrades_getTotalValue (s : PortfolioState) :
    (eraseTrades s).getTotalValue = s.getTotalValue := rfl

@[simp] theorem eraseTrades_getTotalInvested (s : PortfolioState) :
    (eraseTrades s).getTotalInvested = s.getTotalInvested := rfl

@[simp] theorem eraseTrades_getAvailableCash (s : PortfolioState) :
    (eraseTrades s).getAvailableCash = s.getAvailableCash := rfl

@[simp] theorem eraseTrades_idem (s : PortfolioState) :
    eraseTrades (eraseTrades s) = eraseTrades s := rfl

theorem updatePositions_eraseTrades (s : PortfolioState)
    (prices : List (String × ℚ)) :
    eraseTrades (updatePositions s prices) =
      updatePositions (eraseTrades s) prices := rfl

/-- Forget the trade history in an `add_position` outcome. -/
def erasePair (x : PortfolioState × Except PErr Position) :
    PortfolioState × Except PErr Position :=
  (eraseTrades x.1, x.2)

/-- `add_position` commutes with forgetting the trade history; in
particular its outcome does not depend on the wall clock beyond the
appended record's `exit_time`. -/
theorem addPosition_eraseTrades (s : PortfolioState) (pid : String)
    (side : Side) (q p : ℚ) (t n1 n2 : ℕ) :
    erasePair (addPosition s pid side q p t n1) =
      erasePair (addPosition (eraseTrades s) pid side q p t n2) := by
  cases side with
  | buy =>
    by_cases h1 : q * p > s.cashBalance
    · simp [addPosition, erasePair, eraseTrades, h1]
    · by_cases h2 : q * p > s.maxPositionSize
      · simp [addPosition, erasePair, eraseTrades, h1, h2]
      · cases hl : lookupPos s.positions pid with
        | none => simp [addPosition, erasePair, eraseTrades, h1, h2, hl]
        | some ex =>
          by_cases hsx : ex.side = Side.buy
          · simp [addPosition, erasePair, eraseTrades, recordTrade, h1, h2,
              hl, hsx]
          · rcases lt_trichotomy q ex.quantity with hq | hq | hq
            · simp [addPosition, erasePair, eraseTrades, recordTrade, h1, h2,
                hl, hsx, not_le.mpr hq]
            · simp [addPosition, erasePair, eraseTrades, recordTrade, h1, h2,
                hl, hsx, hq.ge, not_lt.mpr hq.le]
            · simp [addPosition, erasePair, eraseTrades, recordTrade, h1, h2,
                hl, hsx, hq.le, hq]
  | sell =>
    by_cases h2 : q * p > s.maxPositionSize
    · simp [addPosition, erasePair, eraseTrades, h2]
    · cases hl : lookupPos s.positions pid with
      | none => simp [addPosition, erasePair, eraseTrades, h2, hl]
      | some ex =>
        by_cases hsx : ex.side = Side.sell
        · simp [addPosition, erasePair, eraseTrades, recordTrade, h2, hl, hsx]
        · rcases lt_trichotomy q ex.quantity with hq | hq | hq
          · simp [addPosition, erasePair, eraseTrades, recordTrade, h2, hl,
              hsx, not_le.mpr hq]
          · simp [addPosition, erasePair, eraseTrades, recordTrade, h2, hl,
              hsx, hq.ge, not_lt.mpr hq.le]
          · simp [addPosition, erasePair, eraseTrades, recordTrade, h2, hl,
              hsx, hq.le, hq]

/-- `close_position` commutes with forgetting the trade history. -/
theorem closePosition_eraseTrades (s : PortfolioState) (pid : String)
    (p : ℚ) (n1 n2 : ℕ) :
    (eraseTrades (closePosition s pid p n1).1 =
      eraseTrades (closePosition (eraseTrades s) pid p n2).1)
    ∧ (closePosition s pid p n1).2 =
      (closePosition (eraseTrades s) pid p n2).2 := by
  cases hl : lookupPos s.positions pid with
  | none => simp [closePosition, eraseTrades, hl]
  | some pos =>
    by_cases hb : pos.side = Side.buy <;>
      simp [closePosition, eraseTrades, recordTrade, hl, hb]

/-- Forget the trade history in an execution outcome. -/
def erasePairE (x : PortfolioState × Option TradeEvent) :
    PortfolioState × Option TradeEvent :=
  (eraseTrades x.1, x.2)

/-- `_execute_signal` commutes with forgetting the trade history. -/
theorem executeSignal_eraseTrades (commissionRate slippageRate : ℚ)
    (strat : Strategy) (port : PortfolioState) (signal : TradingSignal)
    (pid : String) (price : ℚ) (t n1 n2 : ℕ) :
    erasePairE (executeSignal commissionRate slippageRate strat port signal
        pid price t n1) =
      erasePairE (executeSignal commissionRate slippageRate strat
        (eraseTrades port) signal pid price t n2) := by
  obtain ⟨sg, c⟩ := signal
  cases sg with
  | hold => simp [executeSignal, erasePairE]
  | buy =>
    simp only [executeSignal, PortfolioState.getAvailableCash,
      eraseTrades_cashBalance]
    by_cases hsz : strat.calcPositionSize port.cashBalance
        (price * (1 + slippageRate)) ⟨.buy, c⟩ < 10
    · simp [erasePairE, hsz]
    · simp only [if_neg hsz]
      by_cases heff : strat.calcPositionSize port.cashBalance
            (price * (1 + slippageRate)) ⟨.buy, c⟩
          + strat.calcPositionSize port.cashBalance
              (price * (1 + slippageRate)) ⟨.buy, c⟩ * commissionRate
          ≤ port.cashBalance
      · simp only [if_pos heff]
        have hp := addPosition_eraseTrades port pid .buy
          (strat.calcPositionSize port.cashBalance
              (price * (1 + slippageRate)) ⟨.buy, c⟩
            / (price * (1 + slippageRate)))
          (price * (1 + slippageRate)) t n1 n2
        rcases hA : addPosition port pid .buy
            (strat.calcPositionSize port.cashBalance
                (price * (1 + slippageRate)) ⟨.buy, c⟩
              / (price * (1 + slippageRate)))
            (price * (1 + slippageRate)) t n1 with ⟨p1, r1⟩
        rcases hB : addPosition (eraseTrades port) pid .buy
            (strat.calcPositionSize port.cashBalance
                (price * (1 + slippageRate)) ⟨.buy, c⟩
              / (price * (1 + slippageRate)))
            (price * (1 + slippageRate)) t n2 with ⟨p2, r2⟩
        rw [hA, hB] at hp
        simp only [erasePair] at hp
        have hps : eraseTrades p1 = eraseTrades p2 := congrArg Prod.fst hp
        have hrs : r1 = r2 := congrArg Prod.snd hp
        cases r1 with
        | ok x =>
          cases r2 with
          | ok y => simp [erasePairE, hps]
          | error e => simp at hrs
        | error e =>
          cases r2 with
          | ok y => simp at hrs
          | error f => simp [erasePairE, hps]
      · simp [erasePairE, heff]
  | sell =>
    simp only [executeSignal, PortfolioState.getAvailableCash,
      eraseTrades_cashBalance, eraseTrades_positions]
    by_cases hsz : strat.calcPositionSize port.cashBalance
        (price * (1 - slippageRate)) ⟨.sell, c⟩ < 10
    · simp [erasePairE, hsz]
    · simp only [if_neg hsz]
      cases hl : lookupPos port.positions pid with
      | none => simp [erasePairE]
      | some pos =>
        by_cases hb : pos.side = Side.buy
        · simp only [if_pos hb]
          have hc := closePosition_eraseTrades port pid
            (price * (1 - slippageRate)) n1 n2
          simp [erasePairE, hc.1, hc.2]
        · simp [erasePairE, hb]

/-- Forget the trade history inside a loop state. -/
def eraseLoop (st : LoopState) : LoopState :=
  { st with port := eraseTrades st.port }

@[simp] theorem eraseLoop_port (st : LoopState) :
    (eraseLoop st).port = eraseTrades st.port := rfl

@[simp] theorem eraseLoop_signals (st : LoopState) :
    (eraseLoop st).signals = st.signals := rfl

@[simp] theorem eraseLoop_values (st : LoopState) :
    (eraseLoop st).values = st.values := rfl

@[simp] theorem eraseLoop_trades (st : LoopState) :
    (eraseLoop st).trades = st.trades := rfl

/-- Forget the trade history on either loop outcome. -/
def eraseExceptLoop : Except LoopState LoopState → Except LoopState LoopState
  | .ok st => .ok (eraseLoop st)
  | .error st => .error (eraseLoop st)

theorem closePosition_congr (s s' : PortfolioState) (pid : String) (p : ℚ)
    (n1 n2 : ℕ) (h : eraseTrades s = eraseTrades s') :
    eraseTrades (closePosition s pid p n1).1 =
      eraseTrades (closePosition s' pid p n2).1
    ∧ (closePosition s pid p n1).2 = (closePosition s' pid p n2).2 := by
  have h1 := closePosition_eraseTrades s pid p n1 0
  have h2 := closePosition_eraseTrades s' pid p n2 0
  rw [h] at h1
  exact ⟨h1.1.trans h2.1.symm, h1.2.trans h2.2.symm⟩

theorem executeSignal_congr (commissionRate slippageRate : ℚ)
    (strat : Strategy) (s s' : PortfolioState) (sig : TradingSignal)
    (pid : String) (price : ℚ) (t n1 n2 : ℕ)
    (h : eraseTrades s = eraseTrades s') :
    eraseTrades (executeSignal commissionRate slippageRate strat s sig pid
        price t n1).1 =
      eraseTrades (executeSignal commissionRate slippageRate strat s' sig pid
        price t n2).1
    ∧ (executeSignal commissionRate slippageRate strat s sig pid
        price t n1).2 =
      (executeSignal commissionRate slippageRate strat s' sig pid
        price t n2).2 := by
  have h1 := executeSignal_eraseTrades commissionRate slippageRate strat s
    sig pid price t n1 0
  have h2 := executeSignal_eraseTrades commissionRate slippageRate strat s'
    sig pid price t n2 0
  rw [h] at h1
  have h12 := h1.trans h2.symm
  constructor
  · have := congrArg Prod.fst h12
    simpa [erasePairE] using this
  · have := congrArg Prod.snd h12
    simpa [erasePairE] using this

/-- One bar of the loop commutes with forgetting the trade history:
two loop states that agree except on trade histories, processed at
different wall clocks, give outcomes that agree except on trade
histories. -/
theorem processBar_congr (commissionRate slippageRate : ℚ)
    (strat : Strategy) (pid : String) (n1 n2 : ℕ) (st1 st2 : LoopState)
    (step : List Bar × Bar)
    (hport : eraseTrades st1.port = eraseTrades st2.port)
    (hs : st1.signals = st2.signals) (hv : st1.values = st2.values)
    (ht : st1.trades = st2.trades) :
    eraseExceptLoop (processBar commissionRate slippageRate strat pid n1
        st1 step) =
      eraseExceptLoop (processBar commissionRate slippageRate strat pid n2
        st2 step) := by
  have hport' : eraseTrades (updatePositions st1.port [(pid, step.2.close)])
      = eraseTrades (updatePositions st2.port [(pid, step.2.close)]) := by
    rw [updatePositions_eraseTrades, updatePositions_eraseTrades, hport]
  have hval : (updatePositions st1.port [(pid, step.2.close)]).getTotalValue
      = (updatePositions st2.port [(pid, step.2.close)]).getTotalValue := by
    have := congrArg PortfolioState.getTotalValue hport'
    simpa using this
  have hcash : (updatePositions st1.port [(pid, step.2.close)]).cashBalance
      = (updatePositions st2.port [(pid, step.2.close)]).cashBalance := by
    have := congrArg PortfolioState.cashBalance hport'
    simpa using this
  have hinvv : (updatePositions st1.port
        [(pid, step.2.close)]).getTotalInvested
      = (updatePositions st2.port [(pid, step.2.close)]).getTotalInvested := by
    have := congrArg PortfolioState.getTotalInvested hport'
    simpa using this
  simp only [processBar]
  cases hsig : strat.generateSignal step.1 with
  | error e =>
    simp [eraseExceptLoop, eraseLoop, hs, hv, ht, hport', hval, hcash, hinvv]
  | ok sig =>
    by_cases hconf : sig.confidence > 1/2
    · simp only [if_pos hconf]
      have hexec := executeSignal_congr commissionRate slippageRate strat
        (updatePositions st1.port [(pid, step.2.close)])
        (updatePositions st2.port [(pid, step.2.close)])
        sig pid step.2.close step.2.time n1 n2 hport'
      rcases hA : executeSignal commissionRate slippageRate strat
          (updatePositions st1.port [(pid, step.2.close)]) sig pid
          step.2.close step.2.time n1 with ⟨q1, e1⟩
      rcases hB : executeSignal commissionRate slippageRate strat
          (updatePositions st2.port [(pid, step.2.close)]) sig pid
          step.2.close step.2.time n2 with ⟨q2, e2⟩
      rw [hA, hB] at hexec
      obtain ⟨hqs, hes⟩ := hexec
      dsimp only at hqs hes ⊢
      subst hes
      have hqpos : q1.positions = q2.positions := by
        have := congrArg PortfolioState.positions hqs
        simpa using this
      cases hl : lookupPos q1.positions pid with
      | none =>
        have hl2 : lookupPos q2.positions pid = none := hqpos ▸ hl
        rw [hl2]
        simp [eraseExceptLoop, eraseLoop, hs, hv, ht, hport', hval, hcash,
          hinvv, hqs]
      | some pos =>
        have hl2 : lookupPos q2.positions pid = some pos := hqpos ▸ hl
        rw [hl2]
        dsimp only
        cases hexit : strat.shouldExitPosition step.1 pos.entryPrice
            step.2.close pos.side with
        | error e2 =>
          simp [eraseExceptLoop, eraseLoop, hs, hv, ht, hport', hval, hcash,
            hinvv, hqs]
        | ok br =>
          obtain ⟨b, reason⟩ := br
          cases b with
          | false =>
            simp [eraseExceptLoop, eraseLoop, hs, hv, ht, hport', hval,
              hcash, hinvv, hqs]
          | true =>
            have hclose := closePosition_congr q1 q2 pid step.2.close n1 n2
              hqs
            rcases hC : closePosition q1 pid step.2.close n1 with ⟨c1, o1⟩
            rcases hD : closePosition q2 pid step.2.close n2 with ⟨c2, o2⟩
            rw [hC, hD] at hclose
            obtain ⟨hcs, hos⟩ := hclose
            dsimp only at hcs hos ⊢
            subst hos
            cases o1 with
            | none =>
              simp [eraseExceptLoop, eraseLoop, hs, hv, ht, hcs, hval,
                hcash, hinvv]
            | some pnl =>
              simp [eraseExceptLoop, eraseLoop, hs, hv, ht, hcs, hval,
                hcash, hinvv]
    · simp only [if_neg hconf]
      have hqpos : (updatePositions st1.port [(pid, step.2.close)]).positions
          = (updatePositions st2.port [(pid, step.2.close)]).positions := by
        have := congrArg PortfolioState.positions hport'
        simpa using this
      cases hl : lookupPos
          (updatePositions st1.port [(pid, step.2.close)]).positions pid with
      | none =>
        have hl2 : lookupPos
            (updatePositions st2.port [(pid, step.2.close)]).positions pid
            = none := hqpos ▸ hl
        rw [hl2]
        simp [eraseExceptLoop, eraseLoop, hs, hv, ht, hport', hval, hcash,
          hinvv]
      | some pos =>
        have hl2 : lookupPos
            (updatePositions st2.port [(pid, step.2.close)]).positions pid
            = some pos := hqpos ▸ hl
        rw [hl2]
        dsimp only
        cases hexit : strat.shouldExitPosition step.1 pos.entryPrice
            step.2.close pos.side with
        | error e2 =>
          simp [eraseExceptLoop, eraseLoop, hs, hv, ht, hport', hval, hcash,
            hinvv]
        | ok br =>
          obtain ⟨b, reason⟩ := br
          cases b with
          | false =>
            simp [eraseExceptLoop, eraseLoop, hs, hv, ht, hport', hval,
              hcash, hinvv]
          | true =>
            have hclose := closePosition_congr
              (updatePositions st1.port [(pid, step.2.close)])
              (updatePositions st2.port [(pid, step.2.close)])
              pid step.2.close n1 n2 hport'
            rcases hC : closePosition
                (updatePositions st1.port [(pid, step.2.close)]) pid
                step.2.close n1 with ⟨c1, o1⟩
            rcases hD : closePosition
                (updatePositions st2.port [(pid, step.2.close)]) pid
                step.2.close n2 with ⟨c2, o2⟩
            rw [hC, hD] at hclose
            obtain ⟨hcs, hos⟩ := hclose
            dsimp only at hcs hos ⊢
            subst hos
            cases o1 with
            | none =>
              simp [eraseExceptLoop, eraseLoop, hs, hv, ht, hcs, hval,
                hcash, hinvv]
            | some pnl =>
              simp [eraseExceptLoop, eraseLoop, hs, hv, ht, hcs, hval,
                hcash, hinvv]

/-- The bar loop over an arbitrary accumulated outcome. -/
def runLoopAcc (commissionRate slippageRate : ℚ) (strat : Strategy)
    (pid : String) (now : ℕ) (acc : Except LoopState LoopState)
    (steps : List (List Bar × Bar)) : Except LoopState LoopState :=
  steps.foldl
    (fun acc step => match acc with
      | .error st => .error st
      | .ok st => processBar commissionRate slippageRate strat pid now st step)
    acc

theorem runLoop_eq_acc (commissionRate slippageRate : ℚ) (strat : Strategy)
    (pid : String) (now : ℕ) (init : LoopState)
    (steps : List (List Bar × Bar)) :
    runLoop commissionRate slippageRate strat pid now init steps =
      runLoopAcc commissionRate slippageRate strat pid now (.ok init)
        steps := rfl

theorem runLoopAcc_congr (commissionRate slippageRate : ℚ)
    (strat : Strategy) (pid : String) (n1 n2 : ℕ)
    (steps : List (List Bar × Bar)) :
    ∀ acc1 acc2 : Except LoopState LoopState,
      eraseExceptLoop acc1 = eraseExceptLoop acc2 →
      eraseExceptLoop (runLoopAcc commissionRate slippageRate strat pid n1
          acc1 steps) =
        eraseExceptLoop (runLoopAcc commissionRate slippageRate strat pid n2
          acc2 steps) := by
  induction steps with
  | nil => exact fun acc1 acc2 h => h
  | cons step rest ih =>
    intro acc1 acc2 h
    simp only [runLoopAcc, List.foldl_cons]
    apply ih
    cases acc1 with
    | error st1 =>
      cases acc2 with
      | error st2 => simpa [eraseExceptLoop] using h
      | ok st2 => simp [eraseExceptLoop] at h
    | ok st1 =>
      cases acc2 with
      | error st2 => simp [eraseExceptLoop] at h
      | ok st2 =>
        have h' : eraseLoop st1 = eraseLoop st2 := by
          simpa [eraseExceptLoop] using h
        have hp : eraseTrades st1.port = eraseTrades st2.port := by
          have := congrArg LoopState.port h'
          simpa using this
        have hsg : st1.signals = st2.signals := by
          have := congrArg LoopState.signals h'
          simpa using this
        have hvv : st1.values = st2.values := by
          have := congrArg LoopState.values h'
          simpa using this
        have htt : st1.trades = st2.trades := by
          have := congrArg LoopState.trades h'
          simpa using this
        exact processBar_congr commissionRate slippageRate strat pid n1 n2
          st1 st2 step hp hsg hvv htt

/-- The fields of a portfolio state that no ledger operation writes:
initial capital and the two configured limits. -/
def immut (s : PortfolioState) : ℚ × ℚ × ℚ :=
  (s.initialCapital, s.maxPositionSize, s.maxPortfolioRisk)

theorem addPosition_immut (s : PortfolioState) (pid : String) (side : Side)
    (q p : ℚ) (t n : ℕ) :
    immut (addPosition s pid side q p t n).1 = immut s := by
  simp only [addPosition]
  repeat' split
  all_goals simp [immut, recordTrade]

theorem closePosition_immut (s : PortfolioState) (pid : String) (p : ℚ)
    (n : ℕ) : immut (closePosition s pid p n).1 = immut s := by
  simp only [closePosition]
  repeat' split
  all_goals simp [immut, recordTrade]

theorem updatePositions_immut (s : PortfolioState)
    (prices : List (String × ℚ)) :
    immut (updatePositions s prices) = immut s := rfl

theorem reset_immut (s : PortfolioState) : immut s.reset = immut s := rfl

theorem executeSignal_immut (commissionRate slippageRate : ℚ)
    (strat : Strategy) (port : PortfolioState) (sig : TradingSignal)
    (pid : String) (price : ℚ) (t n : ℕ) :
    immut (executeSignal commissionRate slippageRate strat port sig pid
      price t n).1 = immut port := by
  obtain ⟨sg, c⟩ := sig
  cases sg with
  | hold => rfl
  | buy =>
    simp only [executeSignal, PortfolioState.getAvailableCash]
    by_cases hsz : strat.calcPositionSize port.cashBalance
        (price * (1 + slippageRate)) ⟨.buy, c⟩ < 10
    · rw [if_pos hsz]
    · rw [if_neg hsz]
      by_cases heff : strat.calcPositionSize port.cashBalance
            (price * (1 + slippageRate)) ⟨.buy, c⟩
          + strat.calcPositionSize port.cashBalance
              (price * (1 + slippageRate)) ⟨.buy, c⟩ * commissionRate
          ≤ port.cashBalance
      · rw [if_pos heff]
        have h1 := addPosition_immut port pid .buy
          (strat.calcPositionSize port.cashBalance
              (price * (1 + slippageRate)) ⟨.buy, c⟩
            / (price * (1 + slippageRate)))
          (price * (1 + slippageRate)) t n
        rcases hA : addPosition port pid .buy
            (strat.calcPositionSize port.cashBalance
                (price * (1 + slippageRate)) ⟨.buy, c⟩
              / (price * (1 + slippageRate)))
            (price * (1 + slippageRate)) t n with ⟨p1, r1⟩
        rw [hA] at h1
        cases r1 <;> simpa using h1
      · rw [if_neg heff]
  | sell =>
    simp only [executeSignal, PortfolioState.getAvailableCash]
    by_cases hsz : strat.calcPositionSize port.cashBalance
        (price * (1 - slippageRate)) ⟨.sell, c⟩ < 10
    · rw [if_pos hsz]
    · rw [if_neg hsz]
      cases hl : lookupPos port.positions pid with
      | none => rfl
      | some pos =>
        dsimp only
        by_cases hb : pos.side = Side.buy
        · rw [if_pos hb]
          exact closePosition_immut port pid (price * (1 - slippageRate)) n
        · rw [if_neg hb]

/-- The portfolio carried by a loop outcome. -/
def loopPort : Except LoopState LoopState → PortfolioState
  | .ok st => st.port
  | .error st => st.port

theorem processBar_immut (commissionRate slippageRate : ℚ)
    (strat : Strategy) (pid : String) (n : ℕ) (st : LoopState)
    (step : List Bar × Bar) :
    immut (loopPort (processBar commissionRate slippageRate strat pid n st
      step)) = immut st.port := by
  simp only [processBar]
  cases hsig : strat.generateSignal step.1 with
  | error e => simp [loopPort, updatePositions_immut]
  | ok sig =>
    have hupd : immut (updatePositions st.port [(pid, step.2.close)])
        = immut st.port := updatePositions_immut _ _
    by_cases hconf : sig.confidence > 1/2
    · simp only [if_pos hconf]
      have hq := executeSignal_immut commissionRate slippageRate strat
        (updatePositions st.port [(pid, step.2.close)]) sig pid step.2.close
        step.2.time n
      rcases hA : executeSignal commissionRate slippageRate strat
          (updatePositions st.port [(pid, step.2.close)]) sig pid
          step.2.close step.2.time n with ⟨q1, e1⟩
      rw [hA] at hq
      dsimp only at hq ⊢
      cases hl : lookupPos q1.positions pid with
      | none => simp [loopPort, hq, hupd]
      | some pos =>
        dsimp only
        cases hexit : strat.shouldExitPosition step.1 pos.entryPrice
            step.2.close pos.side with
        | error e2 => simp [loopPort, hq, hupd]
        | ok br =>
          obtain ⟨b, reason⟩ := br
          cases b with
          | false => simp [loopPort, hq, hupd]
          | true =>
            have hc := closePosition_immut q1 pid step.2.close n
            rcases hC : closePosition q1 pid step.2.close n with ⟨c1, o1⟩
            rw [hC] at hc
            dsimp only at hc ⊢
            cases o1 <;> simp [loopPort, hc, hq, hupd]
    · simp only [if_neg hconf]
      cases hl : lookupPos
          (updatePositions st.port [(pid, step.2.close)]).positions pid with
      | none => simp [loopPort, hupd]
      | some pos =>
        dsimp only
        cases hexit : strat.shouldExitPosition step.1 pos.entryPrice
            step.2.close pos.side with
        | error e2 => simp [loopPort, hupd]
        | ok br =>
          obtain ⟨b, reason⟩ := br
          cases b with
          | false => simp [loopPort, hupd]
          | true =>
            have hc := closePosition_immut
              (updatePositions st.port [(pid, step.2.close)]) pid
              step.2.close n
            rcases hC : closePosition
                (updatePositions st.port [(pid, step.2.close)]) pid
                step.2.close n with ⟨c1, o1⟩
            rw [hC] at hc
            dsimp only at hc ⊢
            cases o1 <;> simp [loopPort, hc, hupd]

theorem runLoopAcc_immut (commissionRate slippageRate : ℚ)
    (strat : Strategy) (pid : String) (n : ℕ)
    (steps : List (List Bar × Bar)) :
    ∀ acc : Except LoopState LoopState,
      immut (loopPort (runLoopAcc commissionRate slippageRate strat pid n
        acc steps)) = immut (loopPort acc) := by
  induction steps with
  | nil => exact fun acc => rfl
  | cons step rest ih =>
    intro acc
    simp only [runLoopAcc, List.foldl_cons]
    refine (ih _).trans ?_
    cases acc with
    | error st => rfl
    | ok st =>
      dsimp only
      exact processBar_immut commissionRate slippageRate strat pid n st step

/-- C6: running the engine is deterministic and `reset()` is
idempotent — `run_backtest` resets the portfolio first, so two runs on
the same price series with the same (pure) strategy produce identical
reports regardless of the portfolio's prior mutable state (cash,
positions, trade history, recorded values) and regardless of the wall
clock; and a run never writes the immutable fields (initial capital
and configured limits), so the same holds for repeated runs of the
same engine instance. -/
theorem claim_C6 (initialCapital commissionRate slippageRate : ℚ)
    (strat : Strategy) (data : List Bar) (pid : String)
    (s1 s2 : PortfolioState) (n1 n2 : ℕ)
    (hic : s1.initialCapital = s2.initialCapital)
    (hmax : s1.maxPositionSize = s2.maxPositionSize)
    (hrisk : s1.maxPortfolioRisk = s2.maxPortfolioRisk) :
    (runBacktest initialCapital commissionRate slippageRate strat data pid
        s1 n1).2 =
      (runBacktest initialCapital commissionRate slippageRate strat data pid
        s2 n2).2
    ∧ immut (runBacktest initialCapital commissionRate slippageRate strat
        data pid s1 n1).1 = immut s1 := by
  have himm : ∀ (n : ℕ) (s : PortfolioState),
      immut (runBacktest initialCapital commissionRate slippageRate strat
        data pid s n).1 = immut s := by
    intro n s
    simp only [runBacktest]
    by_cases hempty : data.isEmpty
    · rw [if_pos hempty]
    · rw [if_neg hempty]
      by_cases hlen : data.length < strat.requiredHistory
      · rw [if_pos hlen]
        exact reset_immut s
      · rw [if_neg hlen]
        have him := runLoopAcc_immut commissionRate slippageRate strat pid n
          (barSteps data strat.requiredHistory)
          (.ok { port := s.reset, signals := [], values := [], trades := [] })
        rw [← runLoop_eq_acc] at him
        cases hL : runLoop commissionRate slippageRate strat pid n
            { port := s.reset, signals := [], values := [], trades := [] }
            (barSteps data strat.requiredHistory) with
        | error st =>
          rw [hL] at him
          dsimp only [loopPort] at him
          exact him.trans (reset_immut s)
        | ok st =>
          rw [hL] at him
          dsimp only [loopPort] at him
          dsimp only
          by_cases hv0 : st.values.isEmpty
          · rw [if_pos hv0]
            exact him.trans (reset_immut s)
          · rw [if_neg hv0]
            exact him.trans (reset_immut s)
  refine ⟨?_, himm n1 s1⟩
  simp only [runBacktest]
  by_cases hempty : data.isEmpty
  · rw [if_pos hempty, if_pos hempty]
  · rw [if_neg hempty, if_neg hempty]
    have hreset : s1.reset = s2.reset := by
      simp only [PortfolioState.reset]
      rw [hic, hmax, hrisk]
    rw [← hreset]
    by_cases hlen : data.length < strat.requiredHistory
    · rw [if_pos hlen, if_pos hlen]
    · rw [if_neg hlen, if_neg hlen]
      have hloop := runLoopAcc_congr commissionRate slippageRate strat pid
        n1 n2 (barSteps data strat.requiredHistory)
        (.ok { port := s1.reset, signals := [], values := [], trades := [] })
        (.ok { port := s1.reset, signals := [], values := [], trades := [] })
        rfl
      rw [← runLoop_eq_acc, ← runLoop_eq_acc] at hloop
      cases hL1 : runLoop commissionRate slippageRate strat pid n1
          { port := s1.reset, signals := [], values := [], trades := [] }
          (barSteps data strat.requiredHistory) with
      | error st1 =>
        cases hL2 : runLoop commissionRate slippageRate strat pid n2
            { port := s1.reset, signals := [], values := [], trades := [] }
            (barSteps data strat.requiredHistory) with
        | error st2 => rfl
        | ok st2 =>
          rw [hL1, hL2] at hloop
          simp [eraseExceptLoop] at hloop
      | ok st1 =>
        cases hL2 : runLoop commissionRate slippageRate strat pid n2
            { port := s1.reset, signals := [], values := [], trades := [] }
            (barSteps data strat.requiredHistory) with
        | error st2 =>
          rw [hL1, hL2] at hloop
          simp [eraseExceptLoop] at hloop
        | ok st2 =>
          rw [hL1, hL2] at hloop
          have h' : eraseLoop st1 = eraseLoop st2 := by
            simpa [eraseExceptLoop] using hloop
          have hvv : st1.values = st2.values := by
            have := congrArg LoopState.values h'
            simpa using this
          have hss : st1.signals = st2.signals := by
            have := congrArg LoopState.signals h'
            simpa using this
          have htt : st1.trades = st2.trades := by
            have := congrArg LoopState.trades h'
            simpa using this
          dsimp only
          rw [← hvv, ← hss, ← htt]
          by_cases hv0 : st1.values.isEmpty
          · rw [if_pos hv0, if_pos hv0]
          · rw [if_neg hv0, if_neg hv0]

/-- Witness for C6: the same two-bar run from a fresh portfolio and
from a dirtied portfolio (an open short and different cash), at
different wall clocks, yields the same report. -/
theorem claim_C6_w :
    (runBacktest 10000 0 0 stratC8 dataC8 "X"
        (Portfolio.init 10000 1000 (2/100)) 3).2 =
      (runBacktest 10000 0 0 stratC8 dataC8 "X"
        (addPosition (Portfolio.init 10000 1000 (2/100)) "X" .sell 1 5 0
          0).1 7).2
    ∧ immut (runBacktest 10000 0 0 stratC8 dataC8 "X"
        (Portfolio.init 10000 1000 (2/100)) 3).1 =
      immut (Portfolio.init 10000 1000 (2/100)) :=
  claim_C6 10000 0 0 stratC8 dataC8 "X" (Portfolio.init 10000 1000 (2/100))
    (addPosition (Portfolio.init 10000 1000 (2/100)) "X" .sell 1 5 0 0).1
    3 7 (by decide) (by decide) (by decide)

end CoinbaseBot
